import Mathlib

/-!
Verification development for the aggregation, enrichment and geocoding core of
the Groupie Tracker web application (Go). Each Go function that the checked
properties mention is shallowly embedded as an executable Lean definition:
strings are modelled as Lean strings or as lists of characters (Go compares
strings byte by byte; on valid UTF-8 that ordering coincides with the
code-point ordering used here), Go time.Time values that the code builds from
parsed dates are modelled as an injective, strictly monotone integer encoding,
and every network interaction is modelled by passing the decoded upstream
response (or the fetch outcome) as an explicit argument, exactly at the point
where the Go code decodes it.
-/

/-! ## Go string helpers -/
/-- Character predicate of unicode.IsSpace in Go (the Unicode White_Space
property), which strings.TrimSpace uses to trim on both sides. -/
def goIsSpace (c : Char) : Bool :=
  let n := c.toNat
  (0x9 ≤ n && n ≤ 0xD) || n = 0x20 || n = 0x85 || n = 0xA0 || n = 0x1680 ||
    (0x2000 ≤ n && n ≤ 0x200A) || n = 0x2028 || n = 0x2029 || n = 0x202F ||
    n = 0x205F || n = 0x3000

/-- Model of strings.TrimSpace on the character list of a Go string. -/
def goTrimSpace (l : List Char) : List Char :=
  ((l.dropWhile goIsSpace).reverse.dropWhile goIsSpace).reverse

/-- Model of strings.ToLower restricted to ASCII letters. All inputs the
checked properties evaluate are ASCII; on them Go strings.ToLower acts
letterwise like Char.toLower. -/
def goToLower (l : List Char) : List Char :=
  l.map Char.toLower

/-- Model of strings.ToUpper restricted to ASCII letters, as for goToLower. -/
def goToUpper (l : List Char) : List Char :=
  l.map Char.toUpper

/-- Model of strings.HasPrefix: the second argument is the candidate head. -/
def goStartsWith (s pre : List Char) : Bool :=
  pre.isPrefixOf s

/-- Model of strings.HasSuffix. -/
def goHasSuffix (s suf : List Char) : Bool :=
  suf.isSuffixOf s

/-- Model of strings.Contains: does sub occur contiguously inside s. The empty
needle is contained in every string, as in Go. -/
def goContains : List Char → List Char → Bool
  | [], sub => sub.isPrefixOf ([] : List Char)
  | c :: t, sub => sub.isPrefixOf (c :: t) || goContains t sub

/-- Model of strings.EqualFold restricted to ASCII case folding. -/
def goEqualFold (a b : List Char) : Bool :=
  goToLower a = goToLower b

/-! ## Calendar arithmetic and the Go date encoding

The Go code compares parsed release dates with time.Time.After and
time.Time.Equal. Dates built by the release-date parsers are encoded below as
integers in a way that is injective and strictly monotone in chronological
order, so After corresponds to the integer order. -/
/-- Gregorian leap-year rule used by the Go time package. -/
def isLeapYear (y : Nat) : Bool :=
  (y % 4 = 0 && y % 100 ≠ 0) || y % 400 = 0

/-- Number of days in a month of a given year. -/
def daysInMonth (y m : Nat) : Nat :=
  if m = 2 then (if isLeapYear y then 29 else 28)
  else if m = 4 ∨ m = 6 ∨ m = 9 ∨ m = 11 then 30
  else 31

/-- Days in the months strictly before month m of year y. -/
def daysBeforeMonth (y m : Nat) : Nat :=
  (List.range 13).foldl (fun acc k => if 1 ≤ k ∧ k < m then acc + daysInMonth y k else acc) 0

/-- Day count of a civil date from a fixed origin; strictly monotone in the
chronological order of valid dates. -/
def civilDays (y m d : Nat) : Nat :=
  365 * (y - 1) + (y - 1) / 4 + (y - 1) / 400 - (y - 1) / 100 + daysBeforeMonth y m + (d - 1)

/-- A day-level Go date (the release-date parsers below always construct
midnight UTC values, so a calendar day is the full information). -/
structure GoDate where
  year : Nat
  month : Nat
  day : Nat
deriving DecidableEq, Repr

/-- Integer encoding of a day-level date; on parser-validated dates it is
injective and strictly monotone, so time.Time.After is the strict order and
time.Time.Equal is equality of encodings. -/
def GoDate.enc (d : GoDate) : Int :=
  (civilDays d.year d.month d.day : Int)

/-- Full Go instant (with time of day and zone offset) encoded as nanoseconds
from the same origin; time.Time.After is the strict integer order. -/
structure GoInstant where
  ns : Int
deriving DecidableEq, Repr

/-! ## Layout parsing as done by time.Parse

Only the layouts the repository uses are modelled: 2006-01-02, 2006-01,
2006, RFC3339 and RFC3339Nano. Go rejects out-of-range components (month,
day, hour, minute, second, zone offset) and any unconsumed input; for these
layouts RFC3339 and RFC3339Nano accept exactly the same strings because Go
always allows an optional fractional-second field while parsing. -/
/-- Decimal digit test. -/
def isDigitChar (c : Char) : Bool :=
  ('0' ≤ c) && (c ≤ '9')

/-- Reads exactly n decimal digits, returning their value and the rest. -/
def readNum : Nat → Nat → List Char → Option (Nat × List Char)
  | 0, acc, l => some (acc, l)
  | _ + 1, _, [] => none
  | k + 1, acc, c :: t =>
      if isDigitChar c then readNum k (acc * 10 + (c.toNat - 48)) t else none

/-- Consumes one expected literal character. -/
def expectChar (c : Char) : List Char → Option (List Char)
  | [] => none
  | x :: t => if x = c then some t else none

/-- Parses YYYY-MM-DD with range validation, without requiring the rest of the
input to be empty; returns the date and the remaining input. -/
def readYMD (l : List Char) : Option (GoDate × List Char) := do
  let (y, l) ← readNum 4 0 l
  let l ← expectChar '-' l
  let (m, l) ← readNum 2 0 l
  let l ← expectChar '-' l
  let (d, l) ← readNum 2 0 l
  if 1 ≤ m ∧ m ≤ 12 ∧ 1 ≤ d ∧ d ≤ daysInMonth y m then
    some (⟨y, m, d⟩, l)
  else
    none

/-- time.Parse with layout 2006-01-02: full consumption of the input. -/
def parseLayoutYMD (l : List Char) : Option GoDate := do
  let (dt, rest) ← readYMD l
  if rest = [] then some dt else none

/-- time.Parse with layout 2006-01. -/
def parseLayoutYM (l : List Char) : Option GoDate := do
  let (y, l) ← readNum 4 0 l
  let l ← expectChar '-' l
  let (m, rest) ← readNum 2 0 l
  if rest = [] ∧ 1 ≤ m ∧ m ≤ 12 then some ⟨y, m, 1⟩ else none

/-- time.Parse with layout 2006. -/
def parseLayoutY (l : List Char) : Option GoDate := do
  let (y, rest) ← readNum 4 0 l
  if rest = [] then some ⟨y, 1, 1⟩ else none

/-- Reads an optional fractional-second field: a dot followed by at least one
digit; the value is truncated to nanoseconds. -/
def readFrac (l : List Char) : Option (Nat × List Char) :=
  match l with
  | '.' :: rest =>
      let digits := rest.takeWhile isDigitChar
      let rest2 := rest.dropWhile isDigitChar
      if digits = [] then none
      else
        let nine := digits.take 9
        let v := nine.foldl (fun acc c => acc * 10 + (c.toNat - 48)) 0
        some (v * 10 ^ (9 - nine.length), rest2)
  | _ => some (0, l)

/-- Reads the RFC3339 zone suffix: Z, or a signed hh:mm offset in seconds. -/
def readZone (l : List Char) : Option (Int × List Char) :=
  match l with
  | 'Z' :: rest => some (0, rest)
  | '+' :: rest => do
      let (h, rest) ← readNum 2 0 rest
      let rest ← expectChar ':' rest
      let (m, rest) ← readNum 2 0 rest
      if h ≤ 23 ∧ m ≤ 59 then some ((h * 3600 + m * 60 : Nat), rest) else none
  | '-' :: rest => do
      let (h, rest) ← readNum 2 0 rest
      let rest ← expectChar ':' rest
      let (m, rest) ← readNum 2 0 rest
      if h ≤ 23 ∧ m ≤ 59 then some (-((h * 3600 + m * 60 : Nat) : Int), rest) else none
  | _ => none

/-- time.Parse with layout RFC3339 (and RFC3339Nano, which accepts the same
strings): date, literal T, clock, optional fraction, zone. Returns the parsed
instant together with its calendar day. -/
def parseRFC3339 (l : List Char) : Option (GoInstant × GoDate) := do
  let (dt, l) ← readYMD l
  let l ← expectChar 'T' l
  let (h, l) ← readNum 2 0 l
  let l ← expectChar ':' l
  let (mi, l) ← readNum 2 0 l
  let l ← expectChar ':' l
  let (s, l) ← readNum 2 0 l
  let (frac, l) ← readFrac l
  let (off, rest) ← readZone l
  if rest = [] ∧ h ≤ 23 ∧ mi ≤ 59 ∧ s ≤ 59 then
    let secs : Int := (civilDays dt.year dt.month dt.day : Int) * 86400 +
      (h * 3600 + mi * 60 + s : Nat) - off
    some (⟨secs * 1000000000 + (frac : Int)⟩, dt)
  else
    none

/-! ## Release-date parsers of the provider clients -/
/-- ParseSpotifyReleaseDate from internal/api/spotify.go: trims, then tries
RFC3339Nano, RFC3339 (both normalized to the day), a 10-character prefix as
yyyy-mm-dd, then the whole input as yyyy-mm-dd, yyyy-mm and yyyy. The Go
function returns (time.Time, bool); the bool is modelled by Option. -/
def ParseSpotifyReleaseDate (s : String) : Option GoDate :=
  let l := goTrimSpace s.toList
  if l = [] then none
  else
    -- The RFC3339Nano and RFC3339 attempts accept the same strings and
    -- produce the same day, so a single attempt models both branches.
    match parseRFC3339 l with
    | some (_, dt) => some dt
    | none =>
      if 10 ≤ l.length then
        match parseLayoutYMD (l.take 10) with
        | some dt => some dt
        | none =>
          ((parseLayoutYMD l).orElse fun _ =>
            ((parseLayoutYM l).orElse fun _ => parseLayoutY l))
      else
        ((parseLayoutYMD l).orElse fun _ =>
          ((parseLayoutYM l).orElse fun _ => parseLayoutY l))

/-- parseAppleDate from internal/api/apple.go: trims, tries RFC3339 keeping
the full instant (no day truncation), then yyyy-mm-dd at midnight UTC. -/
def parseAppleDate (s : String) : Option GoInstant :=
  let l := goTrimSpace s.toList
  if l = [] then none
  else
    match parseRFC3339 l with
    | some (inst, _) => some inst
    | none =>
      match parseLayoutYMD l with
      | some dt => some ⟨dt.enc * 86400 * 1000000000⟩
      | none => none

/-- ParseDeezerReleaseDate from the Deezer client: rejects empty and the
0000-00-00 placeholder, then tries yyyy-mm-dd, RFC3339Nano, RFC3339 (both
normalized to the day) and a 10-character yyyy-mm-dd prefix. -/
def ParseDeezerReleaseDate (s : String) : Option GoDate :=
  let l := goTrimSpace s.toList
  if l = [] ∨ l = "0000-00-00".toList then none
  else
    match parseLayoutYMD l with
    | some dt => some dt
    | none =>
      match parseRFC3339 l with
      | some (_, dt) => some dt
      | none =>
        if 10 ≤ l.length then parseLayoutYMD (l.take 10) else none

/-! ## Stable sorting as done by sort.SliceStable

The Go code sorts with sort.SliceStable and a strict less comparator. A
stable sort by a fixed comparator is unique, so the insertion sort below
(which inserts each element before the earlier-inserted elements it ties
with) models it exactly. -/
/-- Inserts a past every element strictly less than it, so that a lands
before earlier-inserted elements that tie with it. -/
def stableInsert (less : α → α → Bool) (a : α) : List α → List α
  | [] => [a]
  | b :: t => if less b a then b :: stableInsert less a t else a :: b :: t

/-- Stable sort by a strict comparator; models sort.SliceStable. -/
def stableSort (less : α → α → Bool) : List α → List α
  | [] => []
  | a :: t => stableInsert less a (stableSort less t)

/-! ## The shared release comparator

All three release/track sorts in the repository use one comparator shape:
newest parsed date first, unparsable dates after parsable ones, then the
lower-cased title, then the identifier. relLess is that shape, abstracted
over the already-extracted keys; each concrete comparator below instantiates
it with the fields its Go source compares. -/
/-- Comparison on character lists used to model the Go string operator <
(byte order on UTF-8 equals code-point order). -/
def listCharLt (a b : List Char) : Bool :=
  decide (a < b)

/-- Comparison on Go int values. -/
def intLt (a b : Int) : Bool :=
  decide (a < b)

/-- The comparator body shared by the three sorts: mirrors okI et okJ date
handling, then the lower-cased-name and identifier tie-breakers. -/
def relLess (iLt : ι → ι → Bool) (dx dy : Option Int) (nx ny : List Char) (ix iy : ι) : Bool :=
  match dx, dy with
  | some di, some dj =>
      if di ≠ dj then decide (dj < di)
      else if nx ≠ ny then listCharLt nx ny else iLt ix iy
  | some _, none => true
  | none, some _ => false
  | none, none =>
      if nx ≠ ny then listCharLt nx ny else iLt ix iy

/-- Sort key into a lexicographic linear order: parsable dates (rank 0) come
before unparsable ones (rank 1), newer dates first via negation, then name,
then identifier. -/
def relKey (dx : Option Int) (nx : List Char) (ix : ι) :
    Lex (Nat × Lex (Int × Lex (List Char × ι))) :=
  match dx with
  | some d => toLex (0, toLex (-d, toLex (nx, ix)))
  | none => toLex (1, toLex (0, toLex (nx, ix)))

/-! ## Spotify albums: merge by ID and sort -/
/-- Image record of the Spotify album payload. -/
structure SpotifyImage where
  url : String
  height : Int
  width : Int
deriving DecidableEq, Repr

/-- Album record decoded from the Spotify albums endpoint. -/
structure SpotifyAlbum where
  id : String
  name : String
  albumType : String
  releaseDate : String
  totalTracks : Int
  images : List SpotifyImage
  externalURL : String
deriving DecidableEq, Repr

/-- Comparator of GetSpotifyArtistAlbums: parsed date descending, unparsable
last, lower-cased name, then ID. -/
def spotifyAlbumLess (a b : SpotifyAlbum) : Bool :=
  relLess listCharLt
    ((ParseSpotifyReleaseDate a.releaseDate).map GoDate.enc)
    ((ParseSpotifyReleaseDate b.releaseDate).map GoDate.enc)
    (goToLower a.name.toList) (goToLower b.name.toList)
    a.id.toList b.id.toList

/-- Model of the sort.SliceStable call in GetSpotifyArtistAlbums. -/
def sortSpotifyAlbums : List SpotifyAlbum → List SpotifyAlbum :=
  stableSort spotifyAlbumLess

/-- Duplicate policy of the Spotify merge: the incoming copy a replaces the
stored copy when its date parses and the stored date does not, or parses
strictly older. -/
def spotifyMergeKeep (a existing : SpotifyAlbum) : Bool :=
  match ParseSpotifyReleaseDate a.releaseDate, ParseSpotifyReleaseDate existing.releaseDate with
  | some da, some de => decide (de.enc < da.enc)
  | some _, none => true
  | none, _ => false

/-- One iteration of the byID merge loop in GetSpotifyArtistAlbums. -/
def spotifyMergeStep (acc : List SpotifyAlbum) (a : SpotifyAlbum) : List SpotifyAlbum :=
  if a.id = "" then acc
  else
    match acc.find? (fun e => e.id == a.id) with
    | some existing =>
        if spotifyMergeKeep a existing then
          acc.map (fun e => if e.id == a.id then a else e)
        else acc
    | none => acc ++ [a]

/-- Merge by ID of GetSpotifyArtistAlbums. The Go map holds one entry per ID;
insertion order stands in for the (unspecified) map iteration order, which
the later sort makes irrelevant. -/
def mergeSpotifyAlbums (items : List SpotifyAlbum) : List SpotifyAlbum :=
  items.foldl spotifyMergeStep []

/-- Pure part of GetSpotifyArtistAlbums after the HTTP fetch: clamp the
limit, merge by ID, sort, truncate. -/
def GetSpotifyArtistAlbumsPure (items : List SpotifyAlbum) (limit : Int) : List SpotifyAlbum :=
  let want : Int := if limit ≤ 0 then 10 else if 50 < limit then 50 else limit
  (sortSpotifyAlbums (mergeSpotifyAlbums items)).take want.toNat

/-! ## Apple albums and songs -/
/-- Album record built by GetAppleArtistAlbums. -/
structure AppleAlbum where
  collectionId : Int
  collectionName : String
  collectionType : String
  releaseDate : String
  artworkURL100 : String
  collectionViewURL : String
  trackCount : Int
  country : String
  currency : String
deriving DecidableEq, Repr

/-- Track record built by GetAppleArtistSongs. -/
structure AppleTrack where
  trackId : Int
  trackName : String
  previewURL : String
  trackViewURL : String
  trackTimeMillis : Int
  collectionId : Int
  collectionName : String
  artworkURL100 : String
  releaseDate : String
deriving DecidableEq, Repr

/-- Mixed item decoded from the iTunes lookup endpoint. -/
structure AppleLookupItem where
  wrapperType : String
  kind : String
  artistId : Int
  artistName : String
  artistLinkURL : String
  primaryGenreName : String
  collectionId : Int
  collectionName : String
  collectionType : String
  collectionViewURL : String
  trackCount : Int
  trackId : Int
  trackName : String
  previewURL : String
  trackViewURL : String
  trackTimeMillis : Int
  artworkURL100 : String
  releaseDate : String
  country : String
  currency : String
deriving DecidableEq, Repr

/-- normalizeAppleArtworkURL: trim, upgrade http to https. -/
def normalizeAppleArtworkURL (u : String) : String :=
  let l := goTrimSpace u.toList
  if l = [] then ""
  else if goStartsWith l "http://".toList then
    String.mk ("https://".toList ++ l.drop 7)
  else String.mk l

/-- Filtering and conversion loop of GetAppleArtistAlbums over the decoded
lookup items. -/
def appleAlbumsFromLookup (results : List AppleLookupItem) : List AppleAlbum :=
  results.filterMap fun it =>
    if it.wrapperType ≠ "collection" then none
    else if goToLower (goTrimSpace it.collectionType.toList) ≠ "album".toList ∧
        it.collectionType ≠ "" then none
    else if it.collectionId ≤ 0 ∨ goTrimSpace it.collectionName.toList = [] then none
    else some ⟨it.collectionId, it.collectionName, it.collectionType, it.releaseDate,
      normalizeAppleArtworkURL it.artworkURL100, it.collectionViewURL, it.trackCount,
      it.country, it.currency⟩

/-- Filtering and conversion loop of GetAppleArtistSongs. -/
def appleTracksFromLookup (results : List AppleLookupItem) : List AppleTrack :=
  results.filterMap fun it =>
    if it.wrapperType ≠ "track" ∨ it.kind ≠ "song" then none
    else if it.trackId ≤ 0 ∨ goTrimSpace it.trackName.toList = [] then none
    else some ⟨it.trackId, it.trackName, it.previewURL, it.trackViewURL, it.trackTimeMillis,
      it.collectionId, it.collectionName, normalizeAppleArtworkURL it.artworkURL100,
      it.releaseDate⟩

/-- Comparator of GetAppleArtistAlbums. -/
def appleAlbumLess (a b : AppleAlbum) : Bool :=
  relLess intLt
    ((parseAppleDate a.releaseDate).map GoInstant.ns)
    ((parseAppleDate b.releaseDate).map GoInstant.ns)
    (goToLower a.collectionName.toList) (goToLower b.collectionName.toList)
    a.collectionId b.collectionId

/-- Comparator of GetAppleArtistSongs. -/
def appleTrackLess (a b : AppleTrack) : Bool :=
  relLess intLt
    ((parseAppleDate a.releaseDate).map GoInstant.ns)
    ((parseAppleDate b.releaseDate).map GoInstant.ns)
    (goToLower a.trackName.toList) (goToLower b.trackName.toList)
    a.trackId b.trackId

/-- Model of the sort.SliceStable call in GetAppleArtistAlbums. -/
def sortAppleAlbums : List AppleAlbum → List AppleAlbum :=
  stableSort appleAlbumLess

/-- Model of the sort.SliceStable call in GetAppleArtistSongs. -/
def sortAppleTracks : List AppleTrack → List AppleTrack :=
  stableSort appleTrackLess

/-- Pure part of GetAppleArtistAlbums after the HTTP fetch. -/
def GetAppleArtistAlbumsPure (results : List AppleLookupItem) (limit : Int) : List AppleAlbum :=
  let lim : Int := if limit ≤ 0 ∨ 50 < limit then 10 else limit
  (sortAppleAlbums (appleAlbumsFromLookup results)).take lim.toNat

/-- Pure part of GetAppleArtistSongs after the HTTP fetch. -/
def GetAppleArtistSongsPure (results : List AppleLookupItem) (limit : Int) : List AppleTrack :=
  let lim : Int := if limit ≤ 0 ∨ 50 < limit then 10 else limit
  (sortAppleTracks (appleTracksFromLookup results)).take lim.toNat

/-! ## Deezer albums: multi-record-type merge -/
/-- Album record decoded from the Deezer albums endpoint. -/
structure DeezerAlbum where
  id : Int
  title : String
  recordType : String
  link : String
  share : String
  cover : String
  coverSmall : String
  coverMedium : String
  coverBig : String
  coverXL : String
  releaseDate : String
  nbTracks : Int
  fans : Int
  explicitLyrics : Bool
  tracklist : String
deriving DecidableEq, Repr

/-- Duplicate handling of the Deezer merge: the stored copy stays; only an
empty release date or record type is filled in from the duplicate. -/
def deezerFill (existing a : DeezerAlbum) : DeezerAlbum :=
  ⟨existing.id, existing.title,
    (if existing.recordType = "" ∧ a.recordType ≠ "" then a.recordType else existing.recordType),
    existing.link, existing.share, existing.cover, existing.coverSmall, existing.coverMedium,
    existing.coverBig, existing.coverXL,
    (if existing.releaseDate = "" ∧ a.releaseDate ≠ "" then a.releaseDate else existing.releaseDate),
    existing.nbTracks, existing.fans, existing.explicitLyrics, existing.tracklist⟩

/-- One iteration of the seen/ordered merge loop in GetDeezerArtistAlbums. -/
def deezerMergeStep (acc : List DeezerAlbum) (a : DeezerAlbum) : List DeezerAlbum :=
  if a.id ≤ 0 then acc
  else
    match acc.find? (fun e => e.id == a.id) with
    | some _ => acc.map (fun e => if e.id == a.id then deezerFill e a else e)
    | none => acc ++ [a]

/-- Merge of GetDeezerArtistAlbums over the per-record-type pages, in request
order (unfiltered, single, ep, album), keeping first-seen order. -/
def mergeDeezerAlbums (payloads : List (List DeezerAlbum)) : List DeezerAlbum :=
  payloads.flatten.foldl deezerMergeStep []

/-! ## Keys of the three comparators and the specified ordering -/
/-- Sort key of a Spotify album. -/
def spotifyAlbumKey (a : SpotifyAlbum) : Lex (Nat × Lex (Int × Lex (List Char × List Char))) :=
  relKey ((ParseSpotifyReleaseDate a.releaseDate).map GoDate.enc)
    (goToLower a.name.toList) a.id.toList

/-- Sort key of an Apple album. -/
def appleAlbumKey (a : AppleAlbum) : Lex (Nat × Lex (Int × Lex (List Char × Int))) :=
  relKey ((parseAppleDate a.releaseDate).map GoInstant.ns)
    (goToLower a.collectionName.toList) a.collectionId

/-- Sort key of an Apple track. -/
def appleTrackKey (a : AppleTrack) : Lex (Nat × Lex (Int × Lex (List Char × Int))) :=
  relKey ((parseAppleDate a.releaseDate).map GoInstant.ns)
    (goToLower a.trackName.toList) a.trackId

/-- The ordering stated by the specification, on extracted keys: parsed date
strictly newer first; a parsable date before an unparsable one; otherwise the
dates tie (equal parses, or both unparsable) and the lower-cased name then the
identifier decide. -/
def releaseSpecLE {ι : Type} [LinearOrder ι] (dx dy : Option Int) (nx ny : List Char)
    (ix iy : ι) : Prop :=
  (∃ di dj, dx = some di ∧ dy = some dj ∧ dj < di) ∨
  (dx.isSome = true ∧ dy = none) ∨
  (dx = dy ∧ (nx < ny ∨ (nx = ny ∧ ix ≤ iy)))

/-- The specified ordering between two Spotify albums. -/
def spotifyAlbumSpecLE (a b : SpotifyAlbum) : Prop :=
  releaseSpecLE ((ParseSpotifyReleaseDate a.releaseDate).map GoDate.enc)
    ((ParseSpotifyReleaseDate b.releaseDate).map GoDate.enc)
    (goToLower a.name.toList) (goToLower b.name.toList) a.id.toList b.id.toList

/-- The specified ordering between two Apple albums. -/
def appleAlbumSpecLE (a b : AppleAlbum) : Prop :=
  releaseSpecLE ((parseAppleDate a.releaseDate).map GoInstant.ns)
    ((parseAppleDate b.releaseDate).map GoInstant.ns)
    (goToLower a.collectionName.toList) (goToLower b.collectionName.toList)
    a.collectionId b.collectionId

/-- The specified ordering between two Apple tracks. -/
def appleTrackSpecLE (a b : AppleTrack) : Prop :=
  releaseSpecLE ((parseAppleDate a.releaseDate).map GoInstant.ns)
    ((parseAppleDate b.releaseDate).map GoInstant.ns)
    (goToLower a.trackName.toList) (goToLower b.trackName.toList)
    a.trackId b.trackId

/-! ## C4: the TTL-cached Groupie dataset fetch -/
/-- Modelled from the spec: the Groupie dataset artist record (ArtistRecord).
The record type is declared in a repository file that is not present under
src; the cache logic only ever measures the list length and compares IDs. -/
structure Artist where
  id : Nat
  name : String
deriving DecidableEq, Repr

/-- Modelled from the spec: one relation entry of the Groupie relation index,
keyed by the artist ID. -/
structure Relation where
  id : Nat
deriving DecidableEq, Repr

/-- Modelled from the spec: the Groupie relation index, an object holding an
index array. -/
structure RelationIndex where
  index : List Relation
deriving DecidableEq, Repr

/-- groupieCacheTTL of 10 minutes, in seconds. -/
def groupieCacheTTL : Nat := 600

/-- cacheFresh from the Groupie client: the fetch time is set (the Go zero
time is modelled by none) and lies within the TTL; time in seconds. -/
def cacheFresh (now : Nat) (since : Option Nat) : Bool :=
  match since with
  | none => false
  | some t => now - t < groupieCacheTTL

/-- Package-level artists cache of the Groupie client. -/
structure ArtistsCacheState where
  cache : List Artist
  fetched : Option Nat
deriving DecidableEq, Repr

/-- FetchArtists: serve the cache when fresh and non-empty, otherwise consult
the network (the outcome argument is the decoded response, none on request or
decode failure), falling back to a non-empty stale value; the Bool records
whether the network was consulted. -/
def FetchArtists (st : ArtistsCacheState) (now : Nat) (outcome : Option (List Artist)) :
    Option (List Artist) × ArtistsCacheState × Bool :=
  if cacheFresh now st.fetched ∧ 0 < st.cache.length then (some st.cache, st, false)
  else
    match outcome with
    | none =>
        if 0 < st.cache.length then (some st.cache, st, true) else (none, st, true)
    | some artists => (some artists, ⟨artists, some now⟩, true)

/-- Package-level relations cache of the Groupie client (a nil pointer is
modelled by none). -/
structure RelationsCacheState where
  cache : Option RelationIndex
  fetched : Option Nat
deriving DecidableEq, Repr

/-- FetchRelations: serve the cache when fresh and non-nil, otherwise consult
the network, falling back to a stale value whose index is non-empty. -/
def FetchRelations (st : RelationsCacheState) (now : Nat) (outcome : Option RelationIndex) :
    Option RelationIndex × RelationsCacheState × Bool :=
  if cacheFresh now st.fetched ∧ st.cache.isSome then (st.cache, st, false)
  else
    match outcome with
    | none =>
        match st.cache with
        | some ri =>
            if 0 < ri.index.length then (some ri, st, true) else (none, st, true)
        | none => (none, st, true)
    | some ri => (some ri, ⟨some ri, some now⟩, true)

/-! ## C5: the Spotify token cache -/
/-- Decoded body of the token endpoint response. -/
structure SpotifyTokenResponse where
  accessToken : String
  tokenType : String
  expiresIn : Int
deriving DecidableEq, Repr

/-- Package-level spotifyTokenCache (token with its absolute expiry); the Go
zero value has an empty token. Times are integer seconds. -/
structure SpotifyTokenCache where
  token : String
  expiresAt : Int
deriving DecidableEq, Repr

/-- getSpotifyToken: missing credentials fail before any network call; a
cached token is served while now is strictly before expiresAt minus 30
seconds; otherwise the token endpoint is consulted (outcome argument: none
models a failed request, some the decoded body), an empty access token in the
body is an error, and on success the token is stored with expiry now plus
expiresIn. The Bool records whether the endpoint was consulted. -/
def getSpotifyToken (clientID clientSecret : String) (st : SpotifyTokenCache) (now : Int)
    (outcome : Option SpotifyTokenResponse) :
    Option String × SpotifyTokenCache × Bool :=
  if clientID = "" ∨ clientSecret = "" then (none, st, false)
  else if st.token ≠ "" ∧ now < st.expiresAt - 30 then (some st.token, st, false)
  else
    match outcome with
    | none => (none, st, true)
    | some body =>
        if body.accessToken = "" then (none, st, true)
        else (some body.accessToken, ⟨body.accessToken, now + body.expiresIn⟩, true)

/-! ## Geocoding: fuzzy scoring and candidate selection -/
/-- min3 from the geocode module. -/
def min3 (a b c : Nat) : Nat :=
  if a ≤ b ∧ a ≤ c then a
  else if b ≤ a ∧ b ≤ c then b
  else c

/-- Inner loop of the two-row Levenshtein dynamic program: walks the
characters of b with the previous row aligned so its head is the upper-left
cell, carrying the freshly computed left cell. -/
def levRow (ai : Char) : List Char → List Nat → Nat → List Nat
  | [], _, _ => []
  | _ :: _, [], _ => []
  | _ :: _, [_], _ => []
  | bj :: bt, pjm1 :: pj :: pRest, curPrev =>
      let cost := if ai = bj then 0 else 1
      let del := pj + 1
      let ins := curPrev + 1
      let sub := pjm1 + cost
      let c := min3 del ins sub
      c :: levRow ai bt (pj :: pRest) c

/-- Outer loop of the dynamic program: one row per character of a, the row
index being the first cell. -/
def levRows (b : List Char) : List Char → List Nat → Nat → List Nat
  | [], prev, _ => prev
  | ai :: arest, prev, i => levRows b arest (i :: levRow ai b prev i) (i + 1)

/-- levenshteinGo models levenshtein from the geocode module: early outs for equal and empty
inputs, then the two-row dynamic program; the answer is the last cell of the
final row. The Go code walks bytes; on the ASCII inputs used here that is the
same as walking characters. -/
def levenshteinGo (a b : List Char) : Nat :=
  if a = b then 0
  else if a.length = 0 then b.length
  else if b.length = 0 then a.length
  else (levRows b a (List.range (b.length + 1)) 1).getLastD 0

/-- scoreCandidate from the geocode module, on character lists: lower-cased
trimmed inputs, then the additive bonuses in source order. -/
def scoreCandidateL (query name admin1 : List Char) : Int :=
  let q := goToLower (goTrimSpace query)
  let n := goToLower (goTrimSpace name)
  let a := goToLower (goTrimSpace admin1)
  let score : Int := 0
  let score := if n = q then score + 100 else score
  let score := if goStartsWith n q ∧ q ≠ [] then score + 40 else score
  let score := if goContains n q ∧ q ≠ [] then score + 20 else score
  let score :=
    if q ≠ [] ∧ n ≠ [] then
      let d := levenshteinGo q n
      if d = 0 then score + 30
      else if d = 1 then score + 20
      else if d = 2 then score + 10
      else score
    else score
  let score := if a ≠ [] ∧ q ≠ [] ∧ goContains a q then score + 5 else score
  score

/-- scoreCandidate on Go strings. -/
def scoreCandidate (query name admin1 : String) : Int :=
  scoreCandidateL query.toList name.toList admin1.toList

/-- The scoring formula exactly as the checked property words it: the same
bonuses but with the small-edit-distance bonus and the admin-region bonus
unguarded by the non-emptiness conditions the source imposes. -/
def scoreCandidateClaim (query name admin1 : String) : Int :=
  let q := goToLower (goTrimSpace query.toList)
  let n := goToLower (goTrimSpace name.toList)
  let a := goToLower (goTrimSpace admin1.toList)
  (if n = q then (100 : Int) else 0) +
  (if goStartsWith n q ∧ q ≠ [] then 40 else 0) +
  (if goContains n q ∧ q ≠ [] then 20 else 0) +
  (let d := levenshteinGo q n
   if d = 0 then 30 else if d = 1 then 20 else if d = 2 then 10 else 0) +
  (if goContains a q then 5 else 0)

/-- The scoring formula of the claim amended with the two guards the source
imposes: the edit-distance bonus requires both the query and the name to be
non-empty, and the admin-region bonus requires the admin region and the query
to be non-empty. -/
def scoreCandidateAmended (query name admin1 : String) : Int :=
  let q := goToLower (goTrimSpace query.toList)
  let n := goToLower (goTrimSpace name.toList)
  let a := goToLower (goTrimSpace admin1.toList)
  (if n = q then (100 : Int) else 0) +
  (if goStartsWith n q ∧ q ≠ [] then 40 else 0) +
  (if goContains n q ∧ q ≠ [] then 20 else 0) +
  (if q ≠ [] ∧ n ≠ [] then
    (let d := levenshteinGo q n
     if d = 0 then (30 : Int) else if d = 1 then 20 else if d = 2 then 10 else 0)
   else 0) +
  (if a ≠ [] ∧ q ≠ [] ∧ goContains a q then 5 else 0)

/-! ## Geocoding providers: country filter and candidate pick -/
/-- Candidate decoded from the Open-Meteo geocoding response; the coordinate
type is abstract since the code only copies coordinates. -/
structure OMCandidate (γ : Type) where
  name : String
  latitude : γ
  longitude : γ
  country : String
  countryCode : String
  admin1 : String

/-- Candidate decoded from the Nominatim response (coordinates arrive as
strings and are parsed only after the selection this model covers). -/
structure NomCandidate where
  lat : String
  lon : String
  displayName : String
  name : String
  addressCountryCode : String
  addressState : String
  addressCountry : String
deriving DecidableEq, Repr

/-- Country filter and best-candidate selection of geocodeOpenMeteo after the
response is decoded: an empty result set is not found; with a requested
country the candidates from other countries are removed (upper-cased trimmed
comparison) and an empty remainder is not found; otherwise the
highest-scoring candidate wins with ties going to the earliest. The
subsequent display-string assembly and coordinate copy in the source do not
affect which candidate is chosen, so the chosen candidate is returned. -/
def geocodeOpenMeteoPick {γ : Type} (name countryCode : String)
    (results : List (OMCandidate γ)) : Option (OMCandidate γ) :=
  match results with
  | [] => none
  | _ :: _ =>
    let cc := goToUpper (goTrimSpace countryCode.toList)
    let candidates :=
      if cc ≠ [] then
        results.filter (fun r => goToUpper (goTrimSpace r.countryCode.toList) == cc)
      else results
    match candidates with
    | [] => none
    | c0 :: rest =>
        some (rest.foldl (fun best x =>
          if scoreCandidate name best.name best.admin1 <
              scoreCandidate name x.name x.admin1 then x else best) c0)

/-- Name a Nominatim candidate is scored under: the trimmed name field, or
the trimmed display name when the name is empty. -/
def geocodeNominatimName (r : NomCandidate) : List Char :=
  let cn := goTrimSpace r.name.toList
  if cn = [] then goTrimSpace r.displayName.toList else cn

/-- Country filter and best-candidate selection of geocodeNominatim after the
response is decoded (lower-cased trimmed country comparison); the lat/lon
string-to-float parse happens only after this selection. -/
def geocodeNominatimPick (name countryCode : String) (body : List NomCandidate) :
    Option NomCandidate :=
  let cc := goToLower (goTrimSpace countryCode.toList)
  match body with
  | [] => none
  | _ :: _ =>
    let candidates :=
      if cc ≠ [] then
        body.filter (fun r => goToLower (goTrimSpace r.addressCountryCode.toList) == cc)
      else body
    match candidates with
    | [] => none
    | c0 :: rest =>
        some (rest.foldl (fun best x =>
          if scoreCandidateL name.toList (geocodeNominatimName best) best.addressState.toList <
              scoreCandidateL name.toList (geocodeNominatimName x) x.addressState.toList
          then x else best) c0)

/-! ## The geocoder entry point and its permanent cache -/
/-- Whitespace-separated fields of a string, as strings.Fields. -/
def goFieldsAux : List Char → List Char → List (List Char)
  | [], acc => if acc = [] then [] else [acc.reverse]
  | c :: t, acc =>
      if goIsSpace c then
        (if acc = [] then goFieldsAux t [] else acc.reverse :: goFieldsAux t [])
      else goFieldsAux t (c :: acc)

/-- Model of strings.Fields. -/
def goFields (l : List Char) : List (List Char) :=
  goFieldsAux l []

/-- titleWords from the geocode module: upper-case the first character of
each whitespace-separated word and lower-case the rest. -/
def titleWords (s : List Char) : List Char :=
  let t := goTrimSpace s
  if t = [] then []
  else List.intercalate [' ']
    ((goFields t).map (fun w =>
      match w with
      | [] => []
      | c :: rest => Char.toUpper c :: goToLower rest))

/-- The fifty state names scanned by normalizeUSStateName. -/
def usStateNames : List String :=
  ["alabama", "alaska", "arizona", "arkansas", "california", "colorado", "connecticut",
   "delaware", "florida", "georgia", "hawaii", "idaho", "illinois", "indiana", "iowa",
   "kansas", "kentucky", "louisiana", "maine", "maryland", "massachusetts", "michigan",
   "minnesota", "mississippi", "missouri", "montana", "nebraska", "nevada",
   "new hampshire", "new jersey", "new mexico", "new york", "north carolina",
   "north dakota", "ohio", "oklahoma", "oregon", "pennsylvania", "rhode island",
   "south carolina", "south dakota", "tennessee", "texas", "utah", "vermont",
   "virginia", "washington", "west virginia", "wisconsin", "wyoming"]

/-- normalizeUSStateName from the geocode module: normalize the query
(lower-case, commas to spaces, collapsed whitespace), take the state name at
minimal edit distance (first wins on ties), and accept it only within
distance two. -/
def normalizeUSStateName (s : String) : Option (List Char) :=
  let q0 := goToLower (goTrimSpace s.toList)
  let q1 := q0.map (fun c => if c = ',' then ' ' else c)
  let q := List.intercalate [' '] (goFields q1)
  if q = [] then none
  else
    let best := usStateNames.foldl (fun (bd : List Char × Nat) st =>
      let d := levenshteinGo q st.toList
      if d < bd.2 then (st.toList, d) else bd) ([], 999)
    if best.1 ≠ [] ∧ best.2 ≤ 2 then some (titleWords best.1) else none

/-- tryProviders from the geocoder: Open-Meteo first, then Nominatim as
fallback; a hard Open-Meteo error is preserved only when Nominatim does not
rescue. Provider calls are modelled as oracles from the queried name to
either an error or an optional result of the abstract type. -/
def tryProviders {ρ : Type} (om nom : String → Except Unit (Option ρ)) (name : String) :
    Except Unit (Option ρ) :=
  match om name with
  | Except.ok (some r) => Except.ok (some r)
  | first =>
      match nom name with
      | Except.ok (some r2) => Except.ok (some r2)
      | _ =>
          match first with
          | Except.error e => Except.error e
          | _ => Except.ok none

/-- tryGeocode from the geocoder: the Nominatim pre-pass for recognized US
state names, the raw-name provider chain, and the normalized-name retry.
Every return statement of the source carries a nil error, so the result is
just the optional hit. -/
def tryGeocode {ρ : Type} (om nom : String → Except Unit (Option ρ))
    (name countryCode : String) : Option ρ :=
  let pre : Option ρ :=
    if countryCode = "US" then
      match normalizeUSStateName name with
      | some norm =>
          match nom (String.mk norm) with
          | Except.ok (some r) => some r
          | _ => none
      | none => none
    else none
  match pre with
  | some r => some r
  | none =>
      match tryProviders om nom name with
      | Except.ok (some r) => some r
      | _ =>
          if countryCode = "US" then
            match normalizeUSStateName name with
            | some norm =>
                if goEqualFold norm name.toList = false then
                  match tryProviders om nom (String.mk norm) with
                  | Except.ok (some r) => some r
                  | _ => none
                else none
            | none => none
          else none

/-- Geocode from the geocoder: trim the name (empty is immediately not
found), build the lower-name plus upper-country cache key, serve a cache hit
without network, and otherwise run tryGeocode and store its outcome in the
cache unconditionally. The returned Bool records whether providers were
consulted; the Go error return is nil on every path because tryGeocode never
returns an error. -/
def Geocode {ρ : Type} (cache : List (List Char × Option ρ))
    (om nom : String → Except Unit (Option ρ)) (name countryCode : String) :
    Option ρ × List (List Char × Option ρ) × Bool :=
  let n := goTrimSpace name.toList
  if n = [] then (none, cache, false)
  else
    let cc := goToUpper (goTrimSpace countryCode.toList)
    let key := goToLower n ++ '|' :: cc
    match cache.find? (fun e => e.1 == key) with
    | some hit => (hit.2, cache, false)
    | none =>
        let res := tryGeocode om nom (String.mk n) countryCode
        (res, cache ++ [(key, res)], true)

/-! ## C8: the encyclopedia summary lookup -/
/-- Disambiguation suffixes stripped from the query before title matching in
searchWikipediaTitle, in source order. -/
def wikiSuffixes : List String :=
  [" band", " music group", " musical group", " singer", " musician", " rapper", " artist"]

/-- Base of a search query as computed by searchWikipediaTitle: trimmed, with
the first matching disambiguation suffix removed and trimmed again. -/
def wikiSearchBase (rawQuery : String) : List Char :=
  let base := goTrimSpace rawQuery.toList
  let lowerBase := goToLower base
  match wikiSuffixes.find? (fun s => goHasSuffix lowerBase s.toList) with
  | some s => goTrimSpace (base.take (base.length - s.toList.length))
  | none => base

/-- Known music-related parenthetical disambiguators accepted by the
preferred-variant branch of the scan. -/
def wikiParentheticalOk (lower : List Char) : Bool :=
  goContains lower "(band)".toList || goContains lower "(music group)".toList ||
  goContains lower "(musical group)".toList || goContains lower "(singer)".toList ||
  goContains lower "(musician)".toList || goContains lower "(rapper)".toList ||
  goContains lower "(artist)".toList

/-- The hit scan of searchWikipediaTitle: break on the first case-insensitive
exact match with the base, otherwise remember the first parenthetical variant
and the first non-empty title, and choose exact, then variant, then first
non-empty; no suitable title is an error. -/
def wikiScanAux (lowerBase : List Char) : List String → Option String → Option String →
    Except Unit String
  | [], pref, any =>
      match pref with
      | some t => Except.ok t
      | none =>
          match any with
          | some t => Except.ok t
          | none => Except.error ()
  | title :: rest, pref, any =>
      let lower := goToLower title.toList
      if lower = lowerBase then Except.ok title
      else
        let pref2 :=
          if goStartsWith lower (lowerBase ++ " (".toList) = true ∧
              wikiParentheticalOk lower = true then
            (match pref with
             | some p => some p
             | none => some title)
          else pref
        let any2 :=
          match any with
          | some a => some a
          | none => if title = "" then none else some title
        wikiScanAux lowerBase rest pref2 any2

/-- searchWikipediaTitle after the HTTP fetch: an empty query, a failed
request (outcome none) or an empty hit list is an error; otherwise the hit
titles are scanned. -/
def searchWikipediaTitlePure (rawQuery : String) (outcome : Option (List String)) :
    Except Unit String :=
  if rawQuery = "" then Except.error ()
  else
    match outcome with
    | none => Except.error ()
    | some hits =>
        if hits = [] then Except.error ()
        else wikiScanAux (goToLower (wikiSearchBase rawQuery)) hits none none

/-- Title-resolution cascade of FetchWikipediaSummary: the queries with the
hints artist, band and music group appended, in that order, then the bare
title; the search oracle maps each query to its decoded hit titles (none for
a failed request). -/
def FetchWikipediaSummaryResolve (title : String) (search : String → Option (List String)) :
    Except Unit String :=
  if title = "" then Except.error ()
  else
    match searchWikipediaTitlePure (title ++ " artist") (search (title ++ " artist")) with
    | Except.ok t => Except.ok t
    | Except.error _ =>
      match searchWikipediaTitlePure (title ++ " band") (search (title ++ " band")) with
      | Except.ok t => Except.ok t
      | Except.error _ =>
        match searchWikipediaTitlePure (title ++ " music group")
            (search (title ++ " music group")) with
        | Except.ok t => Except.ok t
        | Except.error _ =>
            searchWikipediaTitlePure title (search title)

/-! ## Order theory of the shared comparator -/
/-- listCharLt agrees with the linear order on character lists. -/
theorem listCharLt_iff (a b : List Char) : listCharLt a b = true ↔ a < b := by
  simp [listCharLt]

/-- intLt agrees with the linear order on integers. -/
theorem intLt_iff (a b : Int) : intLt a b = true ↔ a < b := by
  simp [intLt]

/-- Helper: unfolding two layers of the lexicographic product order. -/
theorem lexPair_lt_iff {ι : Type} [LinearOrder ι] (r s : Nat) (x y : Int)
    (p q : Lex (List Char × ι)) :
    toLex (r, toLex (x, p)) < toLex (s, toLex (y, q)) ↔
      r < s ∨ (r = s ∧ (x < y ∨ (x = y ∧ p < q))) := by
  rw [Prod.Lex.lt_iff, Prod.Lex.lt_iff]

/-- The name/identifier tie-break of relLess is the lexicographic order on the
pair. -/
theorem relTailLt_iff {ι : Type} [LinearOrder ι] {iLt : ι → ι → Bool}
    (hi : ∀ a b : ι, iLt a b = true ↔ a < b) (nx ny : List Char) (ix iy : ι) :
    ((if nx ≠ ny then listCharLt nx ny else iLt ix iy) = true) ↔
      toLex (nx, ix) < toLex (ny, iy) := by
  by_cases h : nx = ny
  · subst h
    rw [Prod.Lex.lt_iff]
    simp [hi]
  · rw [Prod.Lex.lt_iff]
    rw [if_pos h]
    simp only [listCharLt, decide_eq_true_eq]
    constructor
    · exact fun hlt => Or.inl hlt
    · rintro (hlt | ⟨heq, -⟩)
      · exact hlt
      · exact absurd heq h

/-- relLess is the strict order of the lexicographic key relKey. -/
theorem relLess_iff {ι : Type} [LinearOrder ι] {iLt : ι → ι → Bool}
    (hi : ∀ a b : ι, iLt a b = true ↔ a < b)
    (dx dy : Option Int) (nx ny : List Char) (ix iy : ι) :
    relLess iLt dx dy nx ny ix iy = true ↔ relKey dx nx ix < relKey dy ny iy := by
  cases dx with
  | some di =>
    cases dy with
    | some dj =>
      simp only [relLess, relKey]
      rw [lexPair_lt_iff]
      by_cases h : di = dj
      · subst h
        rw [if_neg (by simp)]
        rw [relTailLt_iff hi]
        simp
      · rw [if_pos h]
        simp only [decide_eq_true_eq, neg_lt_neg_iff, neg_inj]
        simp [h]
    | none =>
      simp only [relLess, relKey]
      rw [lexPair_lt_iff]
      norm_num
  | none =>
    cases dy with
    | some dj =>
      simp only [relLess, relKey]
      rw [lexPair_lt_iff]
      norm_num
    | none =>
      simp only [relLess, relKey]
      rw [relTailLt_iff hi]
      rw [lexPair_lt_iff]
      simp

/-! ## Stable sort lemmas, generic in a key into a linear order -/
/-- stableInsert produces a permutation of consing the element. -/
theorem stableInsert_perm {α : Type} (less : α → α → Bool) (a : α) (l : List α) :
    (stableInsert less a l).Perm (a :: l) := by
  induction l with
  | nil => simp [stableInsert]
  | cons b t ih =>
    simp only [stableInsert]
    split
    · exact (ih.cons b).trans (List.Perm.swap a b t)
    · exact List.Perm.refl _

/-- stableSort produces a permutation of its input. -/
theorem stableSort_perm {α : Type} (less : α → α → Bool) (l : List α) :
    (stableSort less l).Perm l := by
  induction l with
  | nil => exact List.Perm.refl _
  | cons a t ih =>
    exact (stableInsert_perm less a (stableSort less t)).trans (ih.cons a)

/-- Membership in a stableInsert result. -/
theorem mem_stableInsert {α : Type} (less : α → α → Bool) (a x : α) (l : List α) :
    x ∈ stableInsert less a l ↔ x = a ∨ x ∈ l := by
  rw [(stableInsert_perm less a l).mem_iff]
  simp

/-- Inserting into a key-sorted list keeps it key-sorted. -/
theorem stableInsert_sorted {α κ : Type} [LinearOrder κ] {less : α → α → Bool} {key : α → κ}
    (hless : ∀ a b, less a b = true ↔ key a < key b) (a : α) (l : List α)
    (hl : l.Pairwise (fun u v => key u ≤ key v)) :
    (stableInsert less a l).Pairwise (fun u v => key u ≤ key v) := by
  induction l with
  | nil => simp [stableInsert]
  | cons b t ih =>
    rcases List.pairwise_cons.mp hl with ⟨hb, ht⟩
    simp only [stableInsert]
    split
    case isTrue h =>
      refine List.pairwise_cons.mpr ⟨?_, ih ht⟩
      intro x hx
      rcases (mem_stableInsert less a x t).mp hx with hxa | hxt
      · subst hxa
        exact le_of_lt ((hless b x).mp h)
      · exact hb x hxt
    case isFalse h =>
      refine List.pairwise_cons.mpr ⟨?_, hl⟩
      intro x hx
      have hab : key a ≤ key b := by
        by_contra hcon
        exact h ((hless b a).mpr (lt_of_not_le hcon))
      rcases hx with _ | hxt
      · exact hab
      · exact le_trans hab (hb x (by assumption))

/-- stableSort output is sorted by the key. -/
theorem stableSort_sorted {α κ : Type} [LinearOrder κ] {less : α → α → Bool} {key : α → κ}
    (hless : ∀ a b, less a b = true ↔ key a < key b) (l : List α) :
    (stableSort less l).Pairwise (fun u v => key u ≤ key v) := by
  induction l with
  | nil => simp [stableSort]
  | cons a t ih =>
    exact stableInsert_sorted hless a (stableSort less t) ih

/-- Two key-sorted lists that are permutations of each other and whose first
list carries pairwise distinct keys are equal. -/
theorem sorted_perm_eq_of_distinct_keys {α κ : Type} [LinearOrder κ] (key : α → κ) :
    ∀ {l₁ l₂ : List α}, l₁.Perm l₂ →
      l₁.Pairwise (fun u v => key u ≤ key v) →
      l₂.Pairwise (fun u v => key u ≤ key v) →
      l₁.Pairwise (fun u v => key u ≠ key v) → l₁ = l₂
  | [], l₂, hperm, _, _, _ => hperm.nil_eq
  | a :: t₁, [], hperm, _, _, _ => by
      exact absurd hperm.symm.nil_eq (by simp)
  | a :: t₁, b :: t₂, hperm, hs₁, hs₂, hd => by
      rcases List.pairwise_cons.mp hs₁ with ⟨ha, hs₁t⟩
      rcases List.pairwise_cons.mp hs₂ with ⟨hbt, hs₂t⟩
      rcases List.pairwise_cons.mp hd with ⟨hda, hdt⟩
      by_cases hab : a = b
      · subst hab
        have htail := hperm.cons_inv
        have := sorted_perm_eq_of_distinct_keys key htail hs₁t hs₂t hdt
        rw [this]
      · exfalso
        have hbmem : b ∈ a :: t₁ := hperm.mem_iff.mpr (List.mem_cons_self b t₂)
        have hbmem2 : b ∈ t₁ := by
          rcases List.mem_cons.mp hbmem with h | h
          · exact absurd h.symm hab
          · exact h
        have hamem : a ∈ b :: t₂ := hperm.mem_iff.mp (List.mem_cons_self a t₁)
        have hamem2 : a ∈ t₂ := by
          rcases List.mem_cons.mp hamem with h | h
          · exact absurd h hab
          · exact h
        have h1 : key a ≤ key b := ha b hbmem2
        have h2 : key b ≤ key a := hbt a hamem2
        exact hda b hbmem2 (le_antisymm h1 h2)

/-- spotifyAlbumLess is the strict order of spotifyAlbumKey. -/
theorem spotifyAlbumLess_iff (a b : SpotifyAlbum) :
    spotifyAlbumLess a b = true ↔ spotifyAlbumKey a < spotifyAlbumKey b :=
  relLess_iff listCharLt_iff _ _ _ _ _ _

/-- appleAlbumLess is the strict order of appleAlbumKey. -/
theorem appleAlbumLess_iff (a b : AppleAlbum) :
    appleAlbumLess a b = true ↔ appleAlbumKey a < appleAlbumKey b :=
  relLess_iff intLt_iff _ _ _ _ _ _

/-- appleTrackLess is the strict order of appleTrackKey. -/
theorem appleTrackLess_iff (a b : AppleTrack) :
    appleTrackLess a b = true ↔ appleTrackKey a < appleTrackKey b :=
  relLess_iff intLt_iff _ _ _ _ _ _

/-- Helper: unfolding two layers of the lexicographic product order, weak
version. -/
theorem lexPair_le_iff {ι : Type} [LinearOrder ι] (r s : Nat) (x y : Int)
    (p q : Lex (List Char × ι)) :
    toLex (r, toLex (x, p)) ≤ toLex (s, toLex (y, q)) ↔
      r < s ∨ (r = s ∧ (x < y ∨ (x = y ∧ p ≤ q))) := by
  rw [Prod.Lex.le_iff, Prod.Lex.le_iff]

/-- The specified ordering is the weak order of the sort key. -/
theorem releaseSpecLE_iff {ι : Type} [LinearOrder ι] (dx dy : Option Int)
    (nx ny : List Char) (ix iy : ι) :
    releaseSpecLE dx dy nx ny ix iy ↔ relKey dx nx ix ≤ relKey dy ny iy := by
  cases dx with
  | some di =>
    cases dy with
    | some dj =>
      simp only [releaseSpecLE, relKey, Option.isSome_some, Option.some.injEq]
      rw [lexPair_le_iff, Prod.Lex.le_iff]
      constructor
      · rintro (⟨di0, dj0, h1, h2, h3⟩ | ⟨-, h⟩ | ⟨heq, h⟩)
        · subst h1; subst h2
          refine Or.inr ⟨rfl, Or.inl (by omega)⟩
        · exact absurd h (by simp)
        · subst heq
          exact Or.inr ⟨rfl, Or.inr ⟨rfl, h⟩⟩
      · rintro (h | ⟨-, h | ⟨heq, h⟩⟩)
        · exact absurd h (lt_irrefl 0)
        · exact Or.inl ⟨di, dj, rfl, rfl, by omega⟩
        · have : di = dj := by omega
          subst this
          exact Or.inr (Or.inr ⟨rfl, h⟩)
    | none =>
      simp only [releaseSpecLE, relKey]
      rw [lexPair_le_iff]
      norm_num
  | none =>
    cases dy with
    | some dj =>
      simp only [releaseSpecLE, relKey]
      rw [lexPair_le_iff]
      norm_num
      exact ⟨fun x h => Option.noConfusion h, fun h => Option.noConfusion h⟩
    | none =>
      simp only [releaseSpecLE, relKey]
      rw [lexPair_le_iff, Prod.Lex.le_iff]
      norm_num
      exact fun x h => Option.noConfusion h

/-- Equal sort keys force equal identifier keys. -/
theorem relKey_eq_id {ι : Type} [LinearOrder ι] (dx dy : Option Int) (nx ny : List Char)
    (ix iy : ι) (h : relKey dx nx ix = relKey dy ny iy) : ix = iy := by
  cases dx <;> cases dy <;> simp [relKey] at h <;> first | exact h.2.2 | exact h.2

/-- Character lists of equal content come from equal strings. -/
theorem string_toList_inj {a b : String} (h : a.toList = b.toList) : a = b := by
  cases a with
  | mk da =>
    cases b with
    | mk db =>
      simp only [String.toList] at h
      exact congrArg String.mk h

/-- The Spotify spec ordering matches the key order. -/
theorem spotifyAlbumSpecLE_iff (a b : SpotifyAlbum) :
    spotifyAlbumSpecLE a b ↔ spotifyAlbumKey a ≤ spotifyAlbumKey b :=
  releaseSpecLE_iff _ _ _ _ _ _

/-- The Apple album spec ordering matches the key order. -/
theorem appleAlbumSpecLE_iff (a b : AppleAlbum) :
    appleAlbumSpecLE a b ↔ appleAlbumKey a ≤ appleAlbumKey b :=
  releaseSpecLE_iff _ _ _ _ _ _

/-- The Apple track spec ordering matches the key order. -/
theorem appleTrackSpecLE_iff (a b : AppleTrack) :
    appleTrackSpecLE a b ↔ appleTrackKey a ≤ appleTrackKey b :=
  releaseSpecLE_iff _ _ _ _ _ _

/-- Distinct Spotify IDs give distinct keys. -/
theorem spotifyAlbumKey_ne {a b : SpotifyAlbum} (h : a.id ≠ b.id) :
    spotifyAlbumKey a ≠ spotifyAlbumKey b :=
  fun hk => h (string_toList_inj (relKey_eq_id _ _ _ _ _ _ hk))

/-- Distinct Apple album IDs give distinct keys. -/
theorem appleAlbumKey_ne {a b : AppleAlbum} (h : a.collectionId ≠ b.collectionId) :
    appleAlbumKey a ≠ appleAlbumKey b :=
  fun hk => h (relKey_eq_id _ _ _ _ _ _ hk)

/-- Distinct Apple track IDs give distinct keys. -/
theorem appleTrackKey_ne {a b : AppleTrack} (h : a.trackId ≠ b.trackId) :
    appleTrackKey a ≠ appleTrackKey b :=
  fun hk => h (relKey_eq_id _ _ _ _ _ _ hk)

/-- C1: every list produced by the release and track listing operations
(GetSpotifyArtistAlbums, GetAppleArtistAlbums, GetAppleArtistSongs) is sorted
by parsed release date descending with unparsable dates after parsable ones,
then case-insensitive title ascending, then ID ascending; on items with
distinct IDs each comparator is a strict total order (exactly one direction
holds, and it is transitive), so the sorted output is the same for every
permutation of the input. -/
theorem release_sort_C1 :
    (∀ (items : List SpotifyAlbum) (limit : Int),
      (GetSpotifyArtistAlbumsPure items limit).Pairwise spotifyAlbumSpecLE) ∧
    (∀ (results : List AppleLookupItem) (limit : Int),
      (GetAppleArtistAlbumsPure results limit).Pairwise appleAlbumSpecLE) ∧
    (∀ (results : List AppleLookupItem) (limit : Int),
      (GetAppleArtistSongsPure results limit).Pairwise appleTrackSpecLE) ∧
    (∀ l₁ l₂ : List SpotifyAlbum, l₁.Perm l₂ →
      l₁.Pairwise (fun a b => a.id ≠ b.id) → sortSpotifyAlbums l₁ = sortSpotifyAlbums l₂) ∧
    (∀ l₁ l₂ : List AppleAlbum, l₁.Perm l₂ →
      l₁.Pairwise (fun a b => a.collectionId ≠ b.collectionId) →
      sortAppleAlbums l₁ = sortAppleAlbums l₂) ∧
    (∀ l₁ l₂ : List AppleTrack, l₁.Perm l₂ →
      l₁.Pairwise (fun a b => a.trackId ≠ b.trackId) →
      sortAppleTracks l₁ = sortAppleTracks l₂) ∧
    (∀ a b : SpotifyAlbum, a.id ≠ b.id →
      (spotifyAlbumLess a b = true ↔ ¬ spotifyAlbumLess b a = true)) ∧
    (∀ a b c : SpotifyAlbum, spotifyAlbumLess a b = true → spotifyAlbumLess b c = true →
      spotifyAlbumLess a c = true) ∧
    (∀ a b : AppleAlbum, a.collectionId ≠ b.collectionId →
      (appleAlbumLess a b = true ↔ ¬ appleAlbumLess b a = true)) ∧
    (∀ a b c : AppleAlbum, appleAlbumLess a b = true → appleAlbumLess b c = true →
      appleAlbumLess a c = true) ∧
    (∀ a b : AppleTrack, a.trackId ≠ b.trackId →
      (appleTrackLess a b = true ↔ ¬ appleTrackLess b a = true)) ∧
    (∀ a b c : AppleTrack, appleTrackLess a b = true → appleTrackLess b c = true →
      appleTrackLess a c = true) := by
  refine ⟨?_, ?_, ?_, ?_, ?_, ?_, ?_, ?_, ?_, ?_, ?_, ?_⟩
  · intro items limit
    refine List.Pairwise.sublist (List.take_sublist _ _) ?_
    exact (stableSort_sorted spotifyAlbumLess_iff (mergeSpotifyAlbums items)).imp
      (fun h => (spotifyAlbumSpecLE_iff _ _).mpr h)
  · intro results limit
    refine List.Pairwise.sublist (List.take_sublist _ _) ?_
    exact (stableSort_sorted appleAlbumLess_iff (appleAlbumsFromLookup results)).imp
      (fun h => (appleAlbumSpecLE_iff _ _).mpr h)
  · intro results limit
    refine List.Pairwise.sublist (List.take_sublist _ _) ?_
    exact (stableSort_sorted appleTrackLess_iff (appleTracksFromLookup results)).imp
      (fun h => (appleTrackSpecLE_iff _ _).mpr h)
  · intro l₁ l₂ hperm hids
    refine sorted_perm_eq_of_distinct_keys spotifyAlbumKey
      (((stableSort_perm _ l₁).trans hperm).trans (stableSort_perm _ l₂).symm)
      (stableSort_sorted spotifyAlbumLess_iff l₁)
      (stableSort_sorted spotifyAlbumLess_iff l₂) ?_
    have hkeys : l₁.Pairwise (fun a b => spotifyAlbumKey a ≠ spotifyAlbumKey b) :=
      hids.imp (fun h => spotifyAlbumKey_ne h)
    exact (List.Perm.pairwise_iff (fun h hk => h hk.symm) (stableSort_perm _ l₁)).mpr hkeys
  · intro l₁ l₂ hperm hids
    refine sorted_perm_eq_of_distinct_keys appleAlbumKey
      (((stableSort_perm _ l₁).trans hperm).trans (stableSort_perm _ l₂).symm)
      (stableSort_sorted appleAlbumLess_iff l₁)
      (stableSort_sorted appleAlbumLess_iff l₂) ?_
    have hkeys : l₁.Pairwise (fun a b => appleAlbumKey a ≠ appleAlbumKey b) :=
      hids.imp (fun h => appleAlbumKey_ne h)
    exact (List.Perm.pairwise_iff (fun h hk => h hk.symm) (stableSort_perm _ l₁)).mpr hkeys
  · intro l₁ l₂ hperm hids
    refine sorted_perm_eq_of_distinct_keys appleTrackKey
      (((stableSort_perm _ l₁).trans hperm).trans (stableSort_perm _ l₂).symm)
      (stableSort_sorted appleTrackLess_iff l₁)
      (stableSort_sorted appleTrackLess_iff l₂) ?_
    have hkeys : l₁.Pairwise (fun a b => appleTrackKey a ≠ appleTrackKey b) :=
      hids.imp (fun h => appleTrackKey_ne h)
    exact (List.Perm.pairwise_iff (fun h hk => h hk.symm) (stableSort_perm _ l₁)).mpr hkeys
  · intro a b hid
    rw [spotifyAlbumLess_iff, spotifyAlbumLess_iff]
    constructor
    · exact fun h hcon => absurd h (lt_asymm hcon)
    · intro h
      exact lt_of_le_of_ne (not_lt.mp h) (spotifyAlbumKey_ne hid)
  · intro a b c hab hbc
    rw [spotifyAlbumLess_iff] at hab hbc ⊢
    exact lt_trans hab hbc
  · intro a b hid
    rw [appleAlbumLess_iff, appleAlbumLess_iff]
    constructor
    · exact fun h hcon => absurd h (lt_asymm hcon)
    · intro h
      exact lt_of_le_of_ne (not_lt.mp h) (appleAlbumKey_ne hid)
  · intro a b c hab hbc
    rw [appleAlbumLess_iff] at hab hbc ⊢
    exact lt_trans hab hbc
  · intro a b hid
    rw [appleTrackLess_iff, appleTrackLess_iff]
    constructor
    · exact fun h hcon => absurd h (lt_asymm hcon)
    · intro h
      exact lt_of_le_of_ne (not_lt.mp h) (appleTrackKey_ne hid)
  · intro a b c hab hbc
    rw [appleTrackLess_iff] at hab hbc ⊢
    exact lt_trans hab hbc

/-- Witness for C1 at concrete inputs: the sortedness component at a
three-album listing (titles a and B with one equal date and one unparsable
date), the determinism components at two-element permutations with distinct
IDs, the totality components at distinct-ID pairs, the transitivity
components at three dated items, and the concrete output order showing the
title a before the title B and the parsable date before the unparsable one. -/
theorem release_sort_C1_witness :
    (GetSpotifyArtistAlbumsPure
      [⟨"id2", "B", "album", "2024-06-01", 1, [], ""⟩,
       ⟨"id1", "a", "album", "2024-06-01", 1, [], ""⟩,
       ⟨"id3", "x", "album", "not-a-date", 1, [], ""⟩] 10).Pairwise spotifyAlbumSpecLE ∧
    GetSpotifyArtistAlbumsPure
      [⟨"id2", "B", "album", "2024-06-01", 1, [], ""⟩,
       ⟨"id1", "a", "album", "2024-06-01", 1, [], ""⟩,
       ⟨"id3", "x", "album", "not-a-date", 1, [], ""⟩] 10 =
      [⟨"id1", "a", "album", "2024-06-01", 1, [], ""⟩,
       ⟨"id2", "B", "album", "2024-06-01", 1, [], ""⟩,
       ⟨"id3", "x", "album", "not-a-date", 1, [], ""⟩] ∧
    sortSpotifyAlbums
      [⟨"id2", "B", "album", "2024-06-01", 1, [], ""⟩,
       ⟨"id1", "a", "album", "2024-06-01", 1, [], ""⟩] =
    sortSpotifyAlbums
      [⟨"id1", "a", "album", "2024-06-01", 1, [], ""⟩,
       ⟨"id2", "B", "album", "2024-06-01", 1, [], ""⟩] ∧
    sortAppleAlbums
      [⟨2, "B", "album", "2024-06-01", "", "", 1, "", ""⟩,
       ⟨1, "a", "album", "2024-06-01", "", "", 1, "", ""⟩] =
    sortAppleAlbums
      [⟨1, "a", "album", "2024-06-01", "", "", 1, "", ""⟩,
       ⟨2, "B", "album", "2024-06-01", "", "", 1, "", ""⟩] ∧
    sortAppleTracks
      [⟨2, "B", "", "", 1, 1, "", "", "2024-06-01"⟩,
       ⟨1, "a", "", "", 1, 1, "", "", "2024-06-01"⟩] =
    sortAppleTracks
      [⟨1, "a", "", "", 1, 1, "", "", "2024-06-01"⟩,
       ⟨2, "B", "", "", 1, 1, "", "", "2024-06-01"⟩] ∧
    (spotifyAlbumLess ⟨"id1", "a", "album", "2024-06-01", 1, [], ""⟩
        ⟨"id2", "B", "album", "2024-06-01", 1, [], ""⟩ = true ↔
      ¬ spotifyAlbumLess ⟨"id2", "B", "album", "2024-06-01", 1, [], ""⟩
        ⟨"id1", "a", "album", "2024-06-01", 1, [], ""⟩ = true) ∧
    (appleAlbumLess ⟨1, "a", "album", "2024-06-01", "", "", 1, "", ""⟩
        ⟨2, "B", "album", "2024-06-01", "", "", 1, "", ""⟩ = true ↔
      ¬ appleAlbumLess ⟨2, "B", "album", "2024-06-01", "", "", 1, "", ""⟩
        ⟨1, "a", "album", "2024-06-01", "", "", 1, "", ""⟩ = true) ∧
    (appleTrackLess ⟨1, "a", "", "", 1, 1, "", "", "2024-06-01"⟩
        ⟨2, "B", "", "", 1, 1, "", "", "2024-06-01"⟩ = true ↔
      ¬ appleTrackLess ⟨2, "B", "", "", 1, 1, "", "", "2024-06-01"⟩
        ⟨1, "a", "", "", 1, 1, "", "", "2024-06-01"⟩ = true) ∧
    spotifyAlbumLess ⟨"id1", "a", "album", "2024-06-03", 1, [], ""⟩
      ⟨"id3", "c", "album", "2024-06-01", 1, [], ""⟩ = true ∧
    appleAlbumLess ⟨1, "a", "album", "2024-06-03", "", "", 1, "", ""⟩
      ⟨3, "c", "album", "2024-06-01", "", "", 1, "", ""⟩ = true ∧
    appleTrackLess ⟨1, "a", "", "", 1, 1, "", "", "2024-06-03"⟩
      ⟨3, "c", "", "", 1, 1, "", "", "2024-06-01"⟩ = true := by
  refine ⟨release_sort_C1.1 _ 10, by decide, ?_, ?_, ?_, ?_, ?_, ?_, ?_, ?_, ?_⟩
  · exact release_sort_C1.2.2.2.1 _ _ (List.Perm.swap _ _ _) (by decide)
  · exact release_sort_C1.2.2.2.2.1 _ _ (List.Perm.swap _ _ _) (by decide)
  · exact release_sort_C1.2.2.2.2.2.1 _ _ (List.Perm.swap _ _ _) (by decide)
  · exact release_sort_C1.2.2.2.2.2.2.1 _ _ (by decide)
  · exact release_sort_C1.2.2.2.2.2.2.2.2.1 _ _ (by decide)
  · exact release_sort_C1.2.2.2.2.2.2.2.2.2.2.1 _ _ (by decide)
  · exact release_sort_C1.2.2.2.2.2.2.2.1 _
      ⟨"id2", "b", "album", "2024-06-02", 1, [], ""⟩ _ (by decide) (by decide)
  · exact release_sort_C1.2.2.2.2.2.2.2.2.2.1 _
      ⟨2, "b", "album", "2024-06-02", "", "", 1, "", ""⟩ _ (by decide) (by decide)
  · exact release_sort_C1.2.2.2.2.2.2.2.2.2.2.2 _
      ⟨2, "b", "", "", 1, 1, "", "", "2024-06-02"⟩ _ (by decide) (by decide)

/-! ## C3: the release-date parser test vector -/
/-- Trimming a list of whitespace characters leaves nothing. -/
theorem goTrimSpace_all_space (l : List Char) (h : ∀ c ∈ l, goIsSpace c = true) :
    goTrimSpace l = [] := by
  unfold goTrimSpace
  rw [List.dropWhile_eq_nil_iff.mpr h]
  simp

/-- C3: ParseSpotifyReleaseDate maps 2024 to 2024-01-01, 2024-06 to
2024-06-01, 2024-06-01 to itself, and both timestamp forms to 2024-06-01,
and is unparsable on the empty string and on every whitespace-only string. -/
theorem parse_release_date_C3 (s : String) (h : ∀ c ∈ s.toList, goIsSpace c = true) :
    ParseSpotifyReleaseDate "2024" = some ⟨2024, 1, 1⟩ ∧
    ParseSpotifyReleaseDate "2024-06" = some ⟨2024, 6, 1⟩ ∧
    ParseSpotifyReleaseDate "2024-06-01" = some ⟨2024, 6, 1⟩ ∧
    ParseSpotifyReleaseDate "2024-06-01T12:34:56Z" = some ⟨2024, 6, 1⟩ ∧
    ParseSpotifyReleaseDate "2024-06-01T12:34:56.123Z" = some ⟨2024, 6, 1⟩ ∧
    ParseSpotifyReleaseDate "" = none ∧
    ParseSpotifyReleaseDate s = none := by
  refine ⟨by decide, by decide, by decide, by decide, by decide, by decide, ?_⟩
  have ht : goTrimSpace s.data = [] :=
    goTrimSpace_all_space s.data (by simpa [String.toList] using h)
  simp [ParseSpotifyReleaseDate, ht]

/-- Witness for C3 at the whitespace-only input of three spaces. -/
theorem parse_release_date_C3_witness :
    (∀ c ∈ ("   " : String).toList, goIsSpace c = true) ∧
    ParseSpotifyReleaseDate "   " = none :=
  ⟨by decide, (parse_release_date_C3 "   " (by decide)).2.2.2.2.2.2⟩

/-! ## C2: merge-by-ID lemmas -/
/-- The Spotify merge step preserves pairwise-distinct IDs. -/
theorem spotifyMergeStep_distinct (acc : List SpotifyAlbum) (a : SpotifyAlbum)
    (hacc : acc.Pairwise (fun x y => x.id ≠ y.id)) :
    (spotifyMergeStep acc a).Pairwise (fun x y => x.id ≠ y.id) := by
  unfold spotifyMergeStep
  split
  · exact hacc
  · split
    case h_1 existing hfind =>
      split
      · rw [List.pairwise_map]
        refine hacc.imp (fun h => ?_)
        rename_i x y
        have hx : (if x.id == a.id then a else x).id = x.id := by
          split
          · rename_i hxe
            exact (beq_iff_eq.mp hxe).symm
          · rfl
        have hy : (if y.id == a.id then a else y).id = y.id := by
          split
          · rename_i hye
            exact (beq_iff_eq.mp hye).symm
          · rfl
        rw [hx, hy]
        exact h
      · exact hacc
    case h_2 hfind =>
      rw [List.pairwise_append]
      refine ⟨hacc, List.pairwise_singleton _ _, ?_⟩
      intro x hx y hy
      have hya : y = a := by simpa using hy
      subst hya
      have hnone := List.find?_eq_none.mp hfind x hx
      intro hEq
      exact hnone (by simp [hEq])

/-- The Deezer merge step preserves pairwise-distinct IDs. -/
theorem deezerMergeStep_distinct (acc : List DeezerAlbum) (a : DeezerAlbum)
    (hacc : acc.Pairwise (fun x y => x.id ≠ y.id)) :
    (deezerMergeStep acc a).Pairwise (fun x y => x.id ≠ y.id) := by
  unfold deezerMergeStep
  split
  · exact hacc
  · split
    case h_1 existing hfind =>
      rw [List.pairwise_map]
      refine hacc.imp (fun h => ?_)
      rename_i x y
      have hx : (if x.id == a.id then deezerFill x a else x).id = x.id := by
        split
        · rfl
        · rfl
      have hy : (if y.id == a.id then deezerFill y a else y).id = y.id := by
        split
        · rfl
        · rfl
      rw [hx, hy]
      exact h
    case h_2 hfind =>
      rw [List.pairwise_append]
      refine ⟨hacc, List.pairwise_singleton _ _, ?_⟩
      intro x hx y hy
      have hya : y = a := by simpa using hy
      subst hya
      have hnone := List.find?_eq_none.mp hfind x hx
      intro hEq
      exact hnone (by simp [hEq])

/-- Folding the Spotify merge keeps pairwise-distinct IDs. -/
theorem mergeSpotify_foldl_distinct (items : List SpotifyAlbum) :
    ∀ acc : List SpotifyAlbum, acc.Pairwise (fun x y => x.id ≠ y.id) →
      (items.foldl spotifyMergeStep acc).Pairwise (fun x y => x.id ≠ y.id) := by
  induction items with
  | nil => exact fun acc h => h
  | cons a t ih =>
    intro acc hacc
    exact ih _ (spotifyMergeStep_distinct acc a hacc)

/-- Folding the Deezer merge keeps pairwise-distinct IDs. -/
theorem mergeDeezer_foldl_distinct (items : List DeezerAlbum) :
    ∀ acc : List DeezerAlbum, acc.Pairwise (fun x y => x.id ≠ y.id) →
      (items.foldl deezerMergeStep acc).Pairwise (fun x y => x.id ≠ y.id) := by
  induction items with
  | nil => exact fun acc h => h
  | cons a t ih =>
    intro acc hacc
    exact ih _ (deezerMergeStep_distinct acc a hacc)

/-- The Spotify merge step keeps every ID already present. -/
theorem spotifyMergeStep_keeps (acc : List SpotifyAlbum) (x : SpotifyAlbum) (id0 : String)
    (h : ∃ e ∈ acc, e.id = id0) : ∃ e ∈ spotifyMergeStep acc x, e.id = id0 := by
  obtain ⟨e, he, heq⟩ := h
  unfold spotifyMergeStep
  split
  · exact ⟨e, he, heq⟩
  · split
    case h_1 existing hfind =>
      split
      · refine ⟨if e.id == x.id then x else e, List.mem_map_of_mem _ he, ?_⟩
        split
        · rename_i hxe
          rw [← beq_iff_eq.mp hxe]
          exact heq
        · exact heq
      · exact ⟨e, he, heq⟩
    case h_2 hfind =>
      exact ⟨e, List.mem_append_left _ he, heq⟩

/-- The Spotify merge step establishes presence of a valid incoming ID. -/
theorem spotifyMergeStep_adds (acc : List SpotifyAlbum) (x : SpotifyAlbum) (hx : x.id ≠ "") :
    ∃ e ∈ spotifyMergeStep acc x, e.id = x.id := by
  unfold spotifyMergeStep
  rw [if_neg hx]
  split
  case h_1 existing hfind =>
    have hmem := List.mem_of_find?_eq_some hfind
    have hp := List.find?_some hfind
    split
    · refine ⟨x, List.mem_map.mpr ⟨existing, hmem, ?_⟩, rfl⟩
      rw [if_pos hp]
    · exact ⟨existing, hmem, beq_iff_eq.mp hp⟩
  case h_2 hfind =>
    exact ⟨x, List.mem_append_right _ (by simp), rfl⟩

/-- Folding the Spotify merge keeps every ID already present. -/
theorem mergeSpotify_foldl_keeps (items : List SpotifyAlbum) :
    ∀ (acc : List SpotifyAlbum) (id0 : String), (∃ e ∈ acc, e.id = id0) →
      ∃ e ∈ items.foldl spotifyMergeStep acc, e.id = id0 := by
  induction items with
  | nil => exact fun acc id0 h => h
  | cons x t ih =>
    intro acc id0 h
    exact ih _ id0 (spotifyMergeStep_keeps acc x id0 h)

/-- Every valid input ID appears in the Spotify fold result. -/
theorem mergeSpotify_foldl_adds (items : List SpotifyAlbum) :
    ∀ (acc : List SpotifyAlbum) (a : SpotifyAlbum), a ∈ items → a.id ≠ "" →
      ∃ e ∈ items.foldl spotifyMergeStep acc, e.id = a.id := by
  induction items with
  | nil => intro acc a h; exact absurd h (List.not_mem_nil a)
  | cons x t ih =>
    intro acc a hmem ha
    rcases List.mem_cons.mp hmem with hax | hat
    · subst hax
      exact mergeSpotify_foldl_keeps t _ a.id (spotifyMergeStep_adds acc a ha)
    · exact ih _ a hat ha

/-- The Deezer merge step keeps every ID already present. -/
theorem deezerMergeStep_keeps (acc : List DeezerAlbum) (x : DeezerAlbum) (id0 : Int)
    (h : ∃ e ∈ acc, e.id = id0) : ∃ e ∈ deezerMergeStep acc x, e.id = id0 := by
  obtain ⟨e, he, heq⟩ := h
  unfold deezerMergeStep
  split
  · exact ⟨e, he, heq⟩
  · split
    case h_1 existing hfind =>
      refine ⟨if e.id == x.id then deezerFill e x else e, List.mem_map_of_mem _ he, ?_⟩
      split
      · exact heq
      · exact heq
    case h_2 hfind =>
      exact ⟨e, List.mem_append_left _ he, heq⟩

/-- The Deezer merge step establishes presence of a valid incoming ID. -/
theorem deezerMergeStep_adds (acc : List DeezerAlbum) (x : DeezerAlbum) (hx : ¬ x.id ≤ 0) :
    ∃ e ∈ deezerMergeStep acc x, e.id = x.id := by
  unfold deezerMergeStep
  rw [if_neg hx]
  split
  case h_1 existing hfind =>
    have hmem := List.mem_of_find?_eq_some hfind
    have hp := List.find?_some hfind
    refine ⟨deezerFill existing x, List.mem_map.mpr ⟨existing, hmem, ?_⟩, beq_iff_eq.mp hp⟩
    rw [if_pos hp]
  case h_2 hfind =>
    exact ⟨x, List.mem_append_right _ (by simp), rfl⟩

/-- Folding the Deezer merge keeps every ID already present. -/
theorem mergeDeezer_foldl_keeps (items : List DeezerAlbum) :
    ∀ (acc : List DeezerAlbum) (id0 : Int), (∃ e ∈ acc, e.id = id0) →
      ∃ e ∈ items.foldl deezerMergeStep acc, e.id = id0 := by
  induction items with
  | nil => exact fun acc id0 h => h
  | cons x t ih =>
    intro acc id0 h
    exact ih _ id0 (deezerMergeStep_keeps acc x id0 h)

/-- Every valid input ID appears in the Deezer fold result. -/
theorem mergeDeezer_foldl_adds (items : List DeezerAlbum) :
    ∀ (acc : List DeezerAlbum) (a : DeezerAlbum), a ∈ items → ¬ a.id ≤ 0 →
      ∃ e ∈ items.foldl deezerMergeStep acc, e.id = a.id := by
  induction items with
  | nil => intro acc a h; exact absurd h (List.not_mem_nil a)
  | cons x t ih =>
    intro acc a hmem ha
    rcases List.mem_cons.mp hmem with hax | hat
    · subst hax
      exact mergeDeezer_foldl_keeps t _ a.id (deezerMergeStep_adds acc a ha)
    · exact ih _ a hat ha

/-- Two-copy evaluation of the Spotify merge. -/
theorem mergeSpotify_pair (a b : SpotifyAlbum) (ha : a.id ≠ "") (hb : b.id = a.id) :
    mergeSpotifyAlbums [a, b] = [if spotifyMergeKeep b a then b else a] := by
  unfold mergeSpotifyAlbums
  simp only [List.foldl_cons, List.foldl_nil]
  have h1 : spotifyMergeStep [] a = [a] := by
    unfold spotifyMergeStep
    rw [if_neg ha]
    rfl
  rw [h1]
  unfold spotifyMergeStep
  have hbne : ¬ b.id = "" := by
    rw [hb]
    exact ha
  rw [if_neg hbne]
  have hfind : [a].find? (fun e => e.id == b.id) = some a := by
    simp [List.find?, hb]
  rw [hfind]
  by_cases hk : spotifyMergeKeep b a = true
  · simp [hk, hb]
  · simp [hk]

/-- Two-copy evaluation of the Deezer merge. -/
theorem mergeDeezer_pair (a b : DeezerAlbum) (ha : ¬ a.id ≤ 0) (hb : b.id = a.id) :
    mergeDeezerAlbums [[a, b]] = [deezerFill a b] := by
  unfold mergeDeezerAlbums
  have hflat : ([[a, b]] : List (List DeezerAlbum)).flatten = [a, b] := by simp
  rw [hflat]
  simp only [List.foldl_cons, List.foldl_nil]
  have h1 : deezerMergeStep [] a = [a] := by
    unfold deezerMergeStep
    rw [if_neg ha]
    rfl
  rw [h1]
  unfold deezerMergeStep
  have hbne : ¬ b.id ≤ 0 := by
    rw [hb]
    exact ha
  rw [if_neg hbne]
  have hfind : [a].find? (fun e => e.id == b.id) = some a := by
    simp [List.find?, hb]
  rw [hfind]
  simp [hb]

/-- C2 (amended): both merges output exactly one entry per valid input ID;
on a duplicate the Spotify merge retains the copy whose release date is
parseable and strictly newer (preferring the parseable copy when only one
parses), while the Deezer merge retains the first-seen copy and only fills an
empty release date or record type from the duplicate; in both merges, feeding
the same release twice (once with an empty date, once with a parseable date,
same ID) yields one entry retaining the valid date. -/
theorem merge_by_id_C2 :
    (∀ items : List SpotifyAlbum,
      (mergeSpotifyAlbums items).Pairwise (fun x y => x.id ≠ y.id)) ∧
    (∀ (items : List SpotifyAlbum) (a : SpotifyAlbum), a ∈ items → a.id ≠ "" →
      ∃ e ∈ mergeSpotifyAlbums items, e.id = a.id) ∧
    (∀ payloads : List (List DeezerAlbum),
      (mergeDeezerAlbums payloads).Pairwise (fun x y => x.id ≠ y.id)) ∧
    (∀ (payloads : List (List DeezerAlbum)) (a : DeezerAlbum), a ∈ payloads.flatten →
      ¬ a.id ≤ 0 → ∃ e ∈ mergeDeezerAlbums payloads, e.id = a.id) ∧
    (∀ a b : SpotifyAlbum, a.id ≠ "" → b.id = a.id →
      mergeSpotifyAlbums [a, b] =
        [match ParseSpotifyReleaseDate b.releaseDate, ParseSpotifyReleaseDate a.releaseDate with
         | some db, some da => if da.enc < db.enc then b else a
         | some _, none => b
         | none, _ => a]) ∧
    (∀ a b : DeezerAlbum, ¬ a.id ≤ 0 → b.id = a.id →
      mergeDeezerAlbums [[a, b]] = [deezerFill a b] ∧
      (deezerFill a b).releaseDate =
        (if a.releaseDate = "" ∧ b.releaseDate ≠ "" then b.releaseDate else a.releaseDate) ∧
      (deezerFill a b).id = a.id) ∧
    (∀ a b : SpotifyAlbum, a.id ≠ "" → b.id = a.id → a.releaseDate = "" →
      (ParseSpotifyReleaseDate b.releaseDate).isSome = true →
      mergeSpotifyAlbums [a, b] = [b] ∧ mergeSpotifyAlbums [b, a] = [b]) ∧
    (∀ a b : DeezerAlbum, ¬ a.id ≤ 0 → b.id = a.id → a.releaseDate = "" →
      b.releaseDate ≠ "" →
      (mergeDeezerAlbums [[a, b]]).map (fun e => e.releaseDate) = [b.releaseDate] ∧
      (mergeDeezerAlbums [[b, a]]).map (fun e => e.releaseDate) = [b.releaseDate]) := by
  refine ⟨?_, ?_, ?_, ?_, ?_, ?_, ?_, ?_⟩
  · exact fun items => mergeSpotify_foldl_distinct items [] List.Pairwise.nil
  · exact fun items a hmem ha => mergeSpotify_foldl_adds items [] a hmem ha
  · exact fun payloads => mergeDeezer_foldl_distinct payloads.flatten [] List.Pairwise.nil
  · exact fun payloads a hmem ha => mergeDeezer_foldl_adds payloads.flatten [] a hmem ha
  · intro a b ha hb
    rw [mergeSpotify_pair a b ha hb]
    unfold spotifyMergeKeep
    cases hpb : ParseSpotifyReleaseDate b.releaseDate with
    | some db =>
      cases hpa : ParseSpotifyReleaseDate a.releaseDate with
      | some da => simp
      | none => simp
    | none =>
      cases hpa : ParseSpotifyReleaseDate a.releaseDate with
      | some da => simp
      | none => simp
  · intro a b ha hb
    exact ⟨mergeDeezer_pair a b ha hb, rfl, rfl⟩
  · intro a b ha hb hrd hpb
    have hpa : ParseSpotifyReleaseDate a.releaseDate = none := by
      rw [hrd]
      rfl
    obtain ⟨db, hdb⟩ := Option.isSome_iff_exists.mp hpb
    constructor
    · rw [mergeSpotify_pair a b ha hb]
      have : spotifyMergeKeep b a = true := by
        unfold spotifyMergeKeep
        rw [hdb, hpa]
      rw [if_pos this]
    · have hbne : b.id ≠ "" := by
        rw [hb]
        exact ha
      rw [mergeSpotify_pair b a hbne hb.symm]
      have : spotifyMergeKeep a b = false := by
        unfold spotifyMergeKeep
        rw [hpa]
      rw [this]
      simp
  · intro a b ha hb hrda hrdb
    have hbne : ¬ b.id ≤ 0 := by
      rw [hb]
      exact ha
    constructor
    · rw [mergeDeezer_pair a b ha hb]
      simp [deezerFill, hrda, hrdb]
    · rw [mergeDeezer_pair b a hbne hb.symm]
      simp [deezerFill, hrdb]

/-- Counterexample for C2 as stated: in the Deezer merge a duplicate whose
release date is parseable and strictly newer is NOT retained; the first-seen
copy with the strictly older parseable date survives. -/
theorem merge_by_id_C2_counterexample :
    mergeDeezerAlbums
      [[⟨1, "t", "album", "", "", "", "", "", "", "", "2020-01-01", 1, 0, false, ""⟩,
        ⟨1, "t", "album", "", "", "", "", "", "", "", "2024-01-01", 1, 0, false, ""⟩]] =
      [⟨1, "t", "album", "", "", "", "", "", "", "", "2020-01-01", 1, 0, false, ""⟩] ∧
    ParseDeezerReleaseDate "2020-01-01" = some ⟨2020, 1, 1⟩ ∧
    ParseDeezerReleaseDate "2024-01-01" = some ⟨2024, 1, 1⟩ ∧
    GoDate.enc ⟨2020, 1, 1⟩ < GoDate.enc ⟨2024, 1, 1⟩ ∧
    ("2020-01-01" : String) ≠ "2024-01-01" := by
  refine ⟨by decide, by decide, by decide, by decide, by decide⟩

/-- Witness for C2 (amended) at concrete inputs: presence of a merged ID,
the Spotify two-copy retention at a dated pair, the Deezer fill behavior, and
the twice-fed release (empty date then parseable date) in both merges. -/
theorem merge_by_id_C2_witness :
    (∃ e ∈ mergeSpotifyAlbums [⟨"id1", "t", "album", "", 1, [], ""⟩], e.id = "id1") ∧
    (∃ e ∈ mergeDeezerAlbums [[⟨1, "t", "album", "", "", "", "", "", "", "", "", 1, 0, false, ""⟩]],
      e.id = 1) ∧
    mergeSpotifyAlbums
      [⟨"id1", "t", "album", "2020-01-01", 1, [], ""⟩,
       ⟨"id1", "t", "album", "2024-01-01", 1, [], ""⟩] =
      [⟨"id1", "t", "album", "2024-01-01", 1, [], ""⟩] ∧
    mergeSpotifyAlbums
      [⟨"id1", "t", "album", "", 1, [], ""⟩,
       ⟨"id1", "t", "album", "2024-01-01", 1, [], ""⟩] =
      [⟨"id1", "t", "album", "2024-01-01", 1, [], ""⟩] ∧
    mergeSpotifyAlbums
      [⟨"id1", "t", "album", "2024-01-01", 1, [], ""⟩,
       ⟨"id1", "t", "album", "", 1, [], ""⟩] =
      [⟨"id1", "t", "album", "2024-01-01", 1, [], ""⟩] ∧
    (mergeDeezerAlbums
      [[⟨1, "t", "album", "", "", "", "", "", "", "", "", 1, 0, false, ""⟩,
        ⟨1, "t", "album", "", "", "", "", "", "", "", "2024-01-01", 1, 0, false, ""⟩]]).map
      (fun e => e.releaseDate) = ["2024-01-01"] ∧
    (mergeDeezerAlbums
      [[⟨1, "t", "album", "", "", "", "", "", "", "", "2024-01-01", 1, 0, false, ""⟩,
        ⟨1, "t", "album", "", "", "", "", "", "", "", "", 1, 0, false, ""⟩]]).map
      (fun e => e.releaseDate) = ["2024-01-01"] := by
  refine ⟨?_, ?_, ?_, ?_, ?_, ?_, ?_⟩
  · exact merge_by_id_C2.2.1 [⟨"id1", "t", "album", "", 1, [], ""⟩]
      ⟨"id1", "t", "album", "", 1, [], ""⟩ (by decide) (by decide)
  · exact merge_by_id_C2.2.2.2.1
      [[⟨1, "t", "album", "", "", "", "", "", "", "", "", 1, 0, false, ""⟩]]
      ⟨1, "t", "album", "", "", "", "", "", "", "", "", 1, 0, false, ""⟩
      (by decide) (by decide)
  · have h := merge_by_id_C2.2.2.2.2.1
      ⟨"id1", "t", "album", "2020-01-01", 1, [], ""⟩
      ⟨"id1", "t", "album", "2024-01-01", 1, [], ""⟩ (by decide) (by decide)
    rw [h]
    decide
  · exact (merge_by_id_C2.2.2.2.2.2.2.1 _ _ (by decide) (by decide) (by decide) (by decide)).1
  · exact (merge_by_id_C2.2.2.2.2.2.2.1 _ _ (by decide) (by decide) (by decide) (by decide)).2
  · exact (merge_by_id_C2.2.2.2.2.2.2.2 _ _ (by decide) (by decide) (by decide) (by decide)).1
  · exact (merge_by_id_C2.2.2.2.2.2.2.2 _ _ (by decide) (by decide) (by decide) (by decide)).2

/-- C4 (amended): the TTL cache serves a fresh cached value with no network
call, falls back to the stale value with a nil error on refetch failure, and
propagates the error only when no usable value was ever stored — where usable
means a non-empty artist list, respectively a non-nil index (fresh path) with
non-empty entries (stale path); hence the fetch succeeds whenever a prior
successful fetch stored a non-empty value. -/
theorem ttl_cache_C4 :
    (∀ (st : ArtistsCacheState) (now : Nat) (outcome : Option (List Artist)),
      cacheFresh now st.fetched = true → st.cache ≠ [] →
      FetchArtists st now outcome = (some st.cache, st, false)) ∧
    (∀ (st : ArtistsCacheState) (now : Nat),
      ¬ (cacheFresh now st.fetched = true ∧ 0 < st.cache.length) → st.cache ≠ [] →
      FetchArtists st now none = (some st.cache, st, true)) ∧
    (∀ (st : ArtistsCacheState) (now : Nat) (artists : List Artist),
      ¬ (cacheFresh now st.fetched = true ∧ 0 < st.cache.length) →
      FetchArtists st now (some artists) = (some artists, ⟨artists, some now⟩, true)) ∧
    (∀ (st : ArtistsCacheState) (now : Nat) (outcome : Option (List Artist)),
      (FetchArtists st now outcome).1 = none → st.cache = [] ∧ outcome = none) ∧
    (∀ (st : ArtistsCacheState) (now : Nat) (outcome : Option (List Artist)),
      st.cache ≠ [] → (FetchArtists st now outcome).1.isSome = true) ∧
    (∀ (st : RelationsCacheState) (now : Nat) (outcome : Option RelationIndex)
      (ri : RelationIndex), st.cache = some ri → cacheFresh now st.fetched = true →
      FetchRelations st now outcome = (some ri, st, false)) ∧
    (∀ (st : RelationsCacheState) (now : Nat) (ri : RelationIndex),
      st.cache = some ri → ¬ (cacheFresh now st.fetched = true ∧ st.cache.isSome = true) →
      ri.index ≠ [] → FetchRelations st now none = (some ri, st, true)) ∧
    (∀ (st : RelationsCacheState) (now : Nat) (outcome : Option RelationIndex),
      (FetchRelations st now outcome).1 = none →
      (st.cache = none ∨ ∃ ri, st.cache = some ri ∧ ri.index = []) ∧ outcome = none) ∧
    (∀ (st : RelationsCacheState) (now : Nat) (outcome : Option RelationIndex)
      (ri : RelationIndex), st.cache = some ri → ri.index ≠ [] →
      (FetchRelations st now outcome).1.isSome = true) := by
  refine ⟨?_, ?_, ?_, ?_, ?_, ?_, ?_, ?_, ?_⟩
  · intro st now outcome hf hne
    unfold FetchArtists
    rw [if_pos ⟨hf, List.length_pos.mpr hne⟩]
  · intro st now hmiss hne
    unfold FetchArtists
    rw [if_neg hmiss]
    simp [List.length_pos.mpr hne]
  · intro st now artists hmiss
    unfold FetchArtists
    rw [if_neg hmiss]
  · intro st now outcome hres
    unfold FetchArtists at hres
    by_cases h1 : cacheFresh now st.fetched = true ∧ 0 < st.cache.length
    · rw [if_pos h1] at hres
      simp at hres
    · rw [if_neg h1] at hres
      cases outcome with
      | some artists => simp at hres
      | none =>
        by_cases h2 : 0 < st.cache.length
        · rw [if_pos h2] at hres
          simp at hres
        · refine ⟨?_, rfl⟩
          have : st.cache.length = 0 := by omega
          exact List.length_eq_zero.mp this
  · intro st now outcome hne
    unfold FetchArtists
    by_cases h1 : cacheFresh now st.fetched = true ∧ 0 < st.cache.length
    · rw [if_pos h1]
      rfl
    · rw [if_neg h1]
      cases outcome with
      | some artists => rfl
      | none =>
        rw [if_pos (List.length_pos.mpr hne)]
        rfl
  · intro st now outcome ri hcache hf
    unfold FetchRelations
    rw [if_pos ⟨hf, by rw [hcache]; rfl⟩, hcache]
  · intro st now ri hcache hmiss hne
    unfold FetchRelations
    rw [if_neg hmiss, hcache]
    simp [List.length_pos.mpr hne]
  · intro st now outcome hres
    unfold FetchRelations at hres
    by_cases h1 : cacheFresh now st.fetched = true ∧ st.cache.isSome = true
    · rw [if_pos h1] at hres
      simp only [] at hres
      rw [hres] at h1
      simp at h1
    · rw [if_neg h1] at hres
      cases outcome with
      | some ri => simp at hres
      | none =>
        cases hc : st.cache with
        | some ri =>
          rw [hc] at hres
          by_cases h2 : 0 < ri.index.length
          · simp [h2] at hres
          · simp [h2] at hres
            refine ⟨Or.inr ⟨ri, rfl, ?_⟩, rfl⟩
            have : ri.index.length = 0 := by omega
            exact List.length_eq_zero.mp this
        | none =>
          rw [hc] at hres
          exact ⟨Or.inl rfl, rfl⟩
  · intro st now outcome ri hcache hne
    unfold FetchRelations
    by_cases h1 : cacheFresh now st.fetched = true ∧ st.cache.isSome = true
    · rw [if_pos h1, hcache]
      rfl
    · rw [if_neg h1]
      cases outcome with
      | some ri2 => rfl
      | none =>
        rw [hcache]
        simp [List.length_pos.mpr hne]

/-- Counterexample for C4 as stated: a successful fetch can store an empty
artist list; the resulting state holds a fresh cached value and witnesses a
prior successful fetch, yet the next call consults the network again and, on
refetch failure, propagates the error. -/
theorem ttl_cache_C4_counterexample :
    FetchArtists ⟨[], none⟩ 0 (some []) = (some [], ⟨[], some 0⟩, true) ∧
    cacheFresh 0 (some 0) = true ∧
    FetchArtists ⟨[], some 0⟩ 0 none = (none, ⟨[], some 0⟩, true) := by
  refine ⟨by decide, by decide, by decide⟩

/-- Witness for C4 (amended) at concrete states: fresh hit with no network
call, stale fallback on refetch failure, store on success, and success of the
relations path from a non-empty stale index. -/
theorem ttl_cache_C4_witness :
    FetchArtists ⟨[⟨1, "a"⟩], some 0⟩ 10 none = (some [⟨1, "a"⟩], ⟨[⟨1, "a"⟩], some 0⟩, false) ∧
    FetchArtists ⟨[⟨1, "a"⟩], some 0⟩ 700 none =
      (some [⟨1, "a"⟩], ⟨[⟨1, "a"⟩], some 0⟩, true) ∧
    FetchArtists ⟨[], none⟩ 0 (some [⟨1, "a"⟩]) =
      (some [⟨1, "a"⟩], ⟨[⟨1, "a"⟩], some 0⟩, true) ∧
    ((FetchArtists ⟨[⟨1, "a"⟩], some 0⟩ 700 none).1.isSome = true) ∧
    FetchRelations ⟨some ⟨[⟨1⟩]⟩, some 0⟩ 10 none =
      (some ⟨[⟨1⟩]⟩, ⟨some ⟨[⟨1⟩]⟩, some 0⟩, false) ∧
    FetchRelations ⟨some ⟨[⟨1⟩]⟩, some 0⟩ 700 none =
      (some ⟨[⟨1⟩]⟩, ⟨some ⟨[⟨1⟩]⟩, some 0⟩, true) := by
  refine ⟨?_, ?_, ?_, ?_, ?_, ?_⟩
  · exact ttl_cache_C4.1 ⟨[⟨1, "a"⟩], some 0⟩ 10 none (by decide) (by decide)
  · exact ttl_cache_C4.2.1 ⟨[⟨1, "a"⟩], some 0⟩ 700 (by decide) (by decide)
  · exact ttl_cache_C4.2.2.1 ⟨[], none⟩ 0 [⟨1, "a"⟩] (by decide)
  · exact ttl_cache_C4.2.2.2.2.1 ⟨[⟨1, "a"⟩], some 0⟩ 700 none (by decide)
  · exact ttl_cache_C4.2.2.2.2.2.1 ⟨some ⟨[⟨1⟩]⟩, some 0⟩ 10 none ⟨[⟨1⟩]⟩ rfl (by decide)
  · exact ttl_cache_C4.2.2.2.2.2.2.1 ⟨some ⟨[⟨1⟩]⟩, some 0⟩ 700 ⟨[⟨1⟩]⟩ rfl (by decide) (by decide)

/-- C5: with credentials configured, the cached token is returned with no
token-endpoint call exactly when a token is cached and now is strictly before
expiresAt minus 30 seconds; so a token expiring in 29 seconds triggers a
refresh, one expiring in 31 seconds does not, and the cached token is never
served without a refresh once now is at or past expiresAt minus 30. -/
theorem token_refresh_C5 (clientID clientSecret : String)
    (hID : clientID ≠ "") (hSec : clientSecret ≠ "") :
    (∀ (st : SpotifyTokenCache) (now : Int) (outcome : Option SpotifyTokenResponse),
      getSpotifyToken clientID clientSecret st now outcome = (some st.token, st, false) ↔
      (st.token ≠ "" ∧ now < st.expiresAt - 30)) ∧
    (∀ (st : SpotifyTokenCache) (now : Int) (outcome : Option SpotifyTokenResponse),
      st.expiresAt = now + 29 →
      (getSpotifyToken clientID clientSecret st now outcome).2.2 = true) ∧
    (∀ (st : SpotifyTokenCache) (now : Int) (outcome : Option SpotifyTokenResponse),
      st.token ≠ "" → st.expiresAt = now + 31 →
      getSpotifyToken clientID clientSecret st now outcome = (some st.token, st, false)) ∧
    (∀ (st : SpotifyTokenCache) (now : Int) (outcome : Option SpotifyTokenResponse),
      st.expiresAt - 30 ≤ now →
      (getSpotifyToken clientID clientSecret st now outcome).2.2 = true) := by
  have hcreds : ¬ (clientID = "" ∨ clientSecret = "") := by
    intro h
    rcases h with h | h
    · exact hID h
    · exact hSec h
  refine ⟨?_, ?_, ?_, ?_⟩
  · intro st now outcome
    constructor
    · intro heq
      by_contra hcon
      unfold getSpotifyToken at heq
      rw [if_neg hcreds, if_neg hcon] at heq
      cases outcome with
      | none => simp at heq
      | some body =>
        by_cases hb : body.accessToken = ""
        · simp [hb] at heq
        · simp [hb] at heq
    · intro hcond
      unfold getSpotifyToken
      rw [if_neg hcreds, if_pos hcond]
  · intro st now outcome hexp
    unfold getSpotifyToken
    rw [if_neg hcreds]
    have hcon : ¬ (st.token ≠ "" ∧ now < st.expiresAt - 30) := by
      intro h
      omega
    rw [if_neg hcon]
    cases outcome with
    | none => rfl
    | some body =>
      by_cases hb : body.accessToken = ""
      · simp [hb]
      · simp [hb]
  · intro st now outcome htok hexp
    unfold getSpotifyToken
    rw [if_neg hcreds, if_pos ⟨htok, by omega⟩]
  · intro st now outcome hle
    unfold getSpotifyToken
    rw [if_neg hcreds]
    have hcon : ¬ (st.token ≠ "" ∧ now < st.expiresAt - 30) := by
      intro h
      omega
    rw [if_neg hcon]
    cases outcome with
    | none => rfl
    | some body =>
      by_cases hb : body.accessToken = ""
      · simp [hb]
      · simp [hb]

/-- Witness for C5 at concrete values: a token expiring in 29 seconds is
refreshed, one expiring in 31 seconds is served from the cache, and the
served-iff-fresh equivalence evaluated at a cached token far from expiry. -/
theorem token_refresh_C5_witness :
    ("id" : String) ≠ "" ∧ ("secret" : String) ≠ "" ∧
    (getSpotifyToken "id" "secret" ⟨"tok", 29⟩ 0 none).2.2 = true ∧
    getSpotifyToken "id" "secret" ⟨"tok", 31⟩ 0 none = (some "tok", ⟨"tok", 31⟩, false) ∧
    (getSpotifyToken "id" "secret" ⟨"tok", 100⟩ 0 none = (some "tok", ⟨"tok", 100⟩, false) ↔
      (("tok" : String) ≠ "" ∧ (0 : Int) < 100 - 30)) ∧
    (getSpotifyToken "id" "secret" ⟨"tok", 10⟩ 0 none).2.2 = true := by
  refine ⟨by decide, by decide, ?_, ?_, ?_, ?_⟩
  · exact (token_refresh_C5 "id" "secret" (by decide) (by decide)).2.1 ⟨"tok", 29⟩ 0 none rfl
  · exact (token_refresh_C5 "id" "secret" (by decide) (by decide)).2.2.1 ⟨"tok", 31⟩ 0 none
      (by decide) rfl
  · exact (token_refresh_C5 "id" "secret" (by decide) (by decide)).1 ⟨"tok", 100⟩ 0 none
  · exact (token_refresh_C5 "id" "secret" (by decide) (by decide)).2.2.2 ⟨"tok", 10⟩ 0 none
      (by decide)

/-- Decomposition of the first-strict-maximum fold used by both providers:
the result splits the scanned list into a strictly-smaller prefix, the chosen
element, and a no-larger suffix. -/
theorem pickFold_spec {α : Type} (score : α → Int) :
    ∀ (rest : List α) (best : α),
      ∃ p q, best :: rest =
          p ++ (rest.foldl (fun b x => if score b < score x then x else b) best) :: q ∧
        (∀ x ∈ p,
          score x < score (rest.foldl (fun b x => if score b < score x then x else b) best)) ∧
        (∀ x ∈ q,
          score x ≤ score (rest.foldl (fun b x => if score b < score x then x else b) best)) := by
  intro rest
  induction rest with
  | nil =>
    intro best
    exact ⟨[], [], rfl, by simp, by simp⟩
  | cons x t ih =>
    intro best
    simp only [List.foldl_cons]
    by_cases hx : score best < score x
    · rw [if_pos hx]
      obtain ⟨p, q, hsplit, hp, hq⟩ := ih x
      refine ⟨best :: p, q, ?_, ?_, hq⟩
      · rw [List.cons_append, ← hsplit]
      · intro y hy
        rcases List.mem_cons.mp hy with hyb | hyp
        · subst hyb
          cases p with
          | nil =>
            have hxr : x = t.foldl (fun b x => if score b < score x then x else b) x := by
              have := hsplit
              simp only [List.nil_append] at this
              exact (List.cons.injEq _ _ _ _).mp this |>.1
            rw [← hxr]
            exact hx
          | cons ph pt =>
            have h1 : x = ph := by
              have := hsplit
              simp only [List.cons_append] at this
              exact (List.cons.injEq _ _ _ _).mp this |>.1
            have h2 : score ph <
                score (t.foldl (fun b x => if score b < score x then x else b) x) :=
              hp ph (by simp)
            rw [← h1] at h2
            exact lt_trans hx h2
        · exact hp y hyp
    · rw [if_neg hx]
      obtain ⟨p, q, hsplit, hp, hq⟩ := ih best
      cases p with
      | nil =>
        have hbr : best = t.foldl (fun b x => if score b < score x then x else b) best := by
          have := hsplit
          simp only [List.nil_append] at this
          exact (List.cons.injEq _ _ _ _).mp this |>.1
        have htq : t = q := by
          have := hsplit
          simp only [List.nil_append] at this
          exact (List.cons.injEq _ _ _ _).mp this |>.2
        refine ⟨[], x :: t, ?_, by simp, ?_⟩
        · simp only [List.nil_append]
          rw [← hbr]
        · intro y hy
          rcases List.mem_cons.mp hy with hyx | hyt
        
          · subst hyx
            rw [← hbr]
            exact le_of_not_lt hx
          · rw [← htq] at hq
            exact hq y hyt
      | cons ph pt =>
        have h1 : best = ph ∧ t = pt ++
            (t.foldl (fun b x => if score b < score x then x else b) best) :: q := by
          have := hsplit
          simp only [List.cons_append] at this
          exact (List.cons.injEq _ _ _ _).mp this
        refine ⟨best :: x :: pt, q, ?_, ?_, hq⟩
        · rw [List.cons_append, List.cons_append, ← h1.2]
        · intro y hy
          have hbestlt : score best <
              score (t.foldl (fun b x => if score b < score x then x else b) best) := by
            have := hp ph (by simp)
            rw [← h1.1] at this
            exact this
          rcases List.mem_cons.mp hy with hyb | hy2
          · subst hyb
            exact hbestlt
          · rcases List.mem_cons.mp hy2 with hyx | hypt
            · subst hyx
              exact lt_of_le_of_lt (le_of_not_lt hx) hbestlt
            · exact hp y (by simp [hypt])

/-- The fold result is one of the scanned elements. -/
theorem pickFold_mem {α : Type} (score : α → Int) (rest : List α) (best : α) :
    rest.foldl (fun b x => if score b < score x then x else b) best ∈ best :: rest := by
  obtain ⟨p, q, hsplit, -, -⟩ := pickFold_spec score rest best
  rw [hsplit]
  exact List.mem_append.mpr (Or.inr (List.mem_cons_self _ _))

/-- C6: with a non-empty requested country code, neither provider ever
selects a candidate whose country code differs (case-insensitively), and both
report not-found when no candidate of the requested country exists. -/
theorem geocode_country_filter_C6 :
    (∀ (γ : Type) (name cc : String) (results : List (OMCandidate γ)) (c : OMCandidate γ),
      goTrimSpace cc.toList ≠ [] →
      geocodeOpenMeteoPick name cc results = some c →
      goToUpper (goTrimSpace c.countryCode.toList) = goToUpper (goTrimSpace cc.toList)) ∧
    (∀ (γ : Type) (name cc : String) (results : List (OMCandidate γ)),
      goTrimSpace cc.toList ≠ [] →
      (∀ r ∈ results,
        goToUpper (goTrimSpace r.countryCode.toList) ≠ goToUpper (goTrimSpace cc.toList)) →
      geocodeOpenMeteoPick name cc results = none) ∧
    (∀ (name cc : String) (body : List NomCandidate) (c : NomCandidate),
      goTrimSpace cc.toList ≠ [] →
      geocodeNominatimPick name cc body = some c →
      goToLower (goTrimSpace c.addressCountryCode.toList) = goToLower (goTrimSpace cc.toList)) ∧
    (∀ (name cc : String) (body : List NomCandidate),
      goTrimSpace cc.toList ≠ [] →
      (∀ r ∈ body,
        goToLower (goTrimSpace r.addressCountryCode.toList) ≠ goToLower (goTrimSpace cc.toList)) →
      geocodeNominatimPick name cc body = none) := by
  have hupper : ∀ s : List Char, s ≠ [] → goToUpper s ≠ [] := by
    intro s hs
    simp [goToUpper, hs]
  have hlower : ∀ s : List Char, s ≠ [] → goToLower s ≠ [] := by
    intro s hs
    simp [goToLower, hs]
  refine ⟨?_, ?_, ?_, ?_⟩
  · intro γ name cc results c hcc hpick
    cases results with
    | nil => simp [geocodeOpenMeteoPick] at hpick
    | cons r0 rrest =>
      simp only [geocodeOpenMeteoPick] at hpick
      rw [if_pos (hupper _ hcc)] at hpick
      cases hc : (r0 :: rrest).filter
          (fun r => goToUpper (goTrimSpace r.countryCode.toList) ==
            goToUpper (goTrimSpace cc.toList)) with
      | nil =>
        rw [hc] at hpick
        simp at hpick
      | cons c0 rest =>
        rw [hc] at hpick
        simp only [Option.some.injEq] at hpick
        have hcmem : c ∈ c0 :: rest := by
          rw [← hpick]
          exact pickFold_mem (fun x : OMCandidate γ => scoreCandidate name x.name x.admin1)
            rest c0
        have hcf : c ∈ (r0 :: rrest).filter
            (fun r => goToUpper (goTrimSpace r.countryCode.toList) ==
              goToUpper (goTrimSpace cc.toList)) := by
          rw [hc]
          exact hcmem
        exact beq_iff_eq.mp (List.mem_filter.mp hcf).2
  · intro γ name cc results hcc hall
    cases results with
    | nil => rfl
    | cons r0 rrest =>
      simp only [geocodeOpenMeteoPick]
      rw [if_pos (hupper _ hcc)]
      have hfilter : (r0 :: rrest).filter
          (fun r => goToUpper (goTrimSpace r.countryCode.toList) ==
            goToUpper (goTrimSpace cc.toList)) = [] := by
        rw [List.filter_eq_nil_iff]
        intro r hr
        simp only [beq_iff_eq]
        exact hall r hr
      rw [hfilter]
  · intro name cc body c hcc hpick
    cases body with
    | nil => simp [geocodeNominatimPick] at hpick
    | cons r0 rrest =>
      simp only [geocodeNominatimPick] at hpick
      rw [if_pos (hlower _ hcc)] at hpick
      cases hc : (r0 :: rrest).filter
          (fun r => goToLower (goTrimSpace r.addressCountryCode.toList) ==
            goToLower (goTrimSpace cc.toList)) with
      | nil =>
        rw [hc] at hpick
        simp at hpick
      | cons c0 rest =>
        rw [hc] at hpick
        simp only [Option.some.injEq] at hpick
        have hcmem : c ∈ c0 :: rest := by
          rw [← hpick]
          exact pickFold_mem (fun x : NomCandidate =>
            scoreCandidateL name.toList (geocodeNominatimName x) x.addressState.toList)
            rest c0
        have hcf : c ∈ (r0 :: rrest).filter
            (fun r => goToLower (goTrimSpace r.addressCountryCode.toList) ==
              goToLower (goTrimSpace cc.toList)) := by
          rw [hc]
          exact hcmem
        exact beq_iff_eq.mp (List.mem_filter.mp hcf).2
  · intro name cc body hcc hall
    cases body with
    | nil => rfl
    | cons r0 rrest =>
      simp only [geocodeNominatimPick]
      rw [if_pos (hlower _ hcc)]
      have hfilter : (r0 :: rrest).filter
          (fun r => goToLower (goTrimSpace r.addressCountryCode.toList) ==
            goToLower (goTrimSpace cc.toList)) = [] := by
        rw [List.filter_eq_nil_iff]
        intro r hr
        simp only [beq_iff_eq]
        exact hall r hr
      rw [hfilter]

/-- Witness for C6: with requested country US and candidates in FR and US,
the US candidate is selected; with only the FR candidate (or a Nominatim fr
candidate) the resolver reports not found. -/
theorem geocode_country_filter_C6_witness :
    goTrimSpace ("US" : String).toList ≠ [] ∧
    @geocodeOpenMeteoPick Int "paris" "US"
      [⟨"Paris", 1, 2, "France", "FR", "Ile de France"⟩,
       ⟨"Paris", 3, 4, "United States", "US", "Texas"⟩] =
      some ⟨"Paris", 3, 4, "United States", "US", "Texas"⟩ ∧
    goToUpper (goTrimSpace ("US" : String).toList) =
      goToUpper (goTrimSpace ("US" : String).toList) ∧
    @geocodeOpenMeteoPick Int "paris" "US"
      [⟨"Paris", 1, 2, "France", "FR", "Ile de France"⟩] = none ∧
    geocodeNominatimPick "paris" "US"
      [⟨"1", "2", "Paris, France", "Paris", "fr", "", "France"⟩] = none := by
  refine ⟨by decide, by rfl, ?_, ?_, ?_⟩
  · exact geocode_country_filter_C6.1 Int "paris" "US"
      [⟨"Paris", 1, 2, "France", "FR", "Ile de France"⟩,
       ⟨"Paris", 3, 4, "United States", "US", "Texas"⟩]
      ⟨"Paris", 3, 4, "United States", "US", "Texas"⟩ (by decide) (by rfl)
  · exact geocode_country_filter_C6.2.1 Int "paris" "US"
      [⟨"Paris", 1, 2, "France", "FR", "Ile de France"⟩] (by decide) (by decide)
  · exact geocode_country_filter_C6.2.2.2 "paris" "US"
      [⟨"1", "2", "Paris, France", "Paris", "fr", "", "France"⟩] (by decide) (by decide)

set_option maxHeartbeats 2000000 in
/-- C7 (amended): the candidate score equals the sum the property states,
with the two guards the source imposes (the edit-distance bonus needs a
non-empty query and name, the admin-region bonus a non-empty admin region and
query); among the in-country candidates each provider selects one with the
strictly highest score, ties resolved to the earliest candidate in provider
order. -/
theorem score_candidate_C7 :
    (∀ q n a : String, scoreCandidate q n a = scoreCandidateAmended q n a) ∧
    (∀ (γ : Type) (name cc : String) (results : List (OMCandidate γ)) (c : OMCandidate γ),
      geocodeOpenMeteoPick name cc results = some c →
      ∃ p q, (if goToUpper (goTrimSpace cc.toList) ≠ [] then
          results.filter (fun r => goToUpper (goTrimSpace r.countryCode.toList) ==
            goToUpper (goTrimSpace cc.toList)) else results) = p ++ c :: q ∧
        (∀ x ∈ p, scoreCandidate name x.name x.admin1 < scoreCandidate name c.name c.admin1) ∧
        (∀ x ∈ q, scoreCandidate name x.name x.admin1 ≤ scoreCandidate name c.name c.admin1)) ∧
    (∀ (name cc : String) (body : List NomCandidate) (c : NomCandidate),
      geocodeNominatimPick name cc body = some c →
      ∃ p q, (if goToLower (goTrimSpace cc.toList) ≠ [] then
          body.filter (fun r => goToLower (goTrimSpace r.addressCountryCode.toList) ==
            goToLower (goTrimSpace cc.toList)) else body) = p ++ c :: q ∧
        (∀ x ∈ p, scoreCandidateL name.toList (geocodeNominatimName x) x.addressState.toList <
          scoreCandidateL name.toList (geocodeNominatimName c) c.addressState.toList) ∧
        (∀ x ∈ q, scoreCandidateL name.toList (geocodeNominatimName x) x.addressState.toList ≤
          scoreCandidateL name.toList (geocodeNominatimName c) c.addressState.toList)) := by
  refine ⟨?_, ?_, ?_⟩
  · intro q n a
    simp only [scoreCandidate, scoreCandidateL, scoreCandidateAmended]
    split_ifs <;> omega
  · intro γ name cc results c hpick
    cases results with
    | nil => simp [geocodeOpenMeteoPick] at hpick
    | cons r0 rrest =>
      simp only [geocodeOpenMeteoPick] at hpick
      cases hc : (if goToUpper (goTrimSpace cc.toList) ≠ [] then
          (r0 :: rrest).filter (fun r => goToUpper (goTrimSpace r.countryCode.toList) ==
            goToUpper (goTrimSpace cc.toList)) else r0 :: rrest) with
      | nil =>
        rw [hc] at hpick
        simp at hpick
      | cons c0 rest =>
        rw [hc] at hpick
        simp only [Option.some.injEq] at hpick
        obtain ⟨p, q, hsplit, hp, hq⟩ :=
          pickFold_spec (fun x : OMCandidate γ => scoreCandidate name x.name x.admin1) rest c0
        rw [hpick] at hsplit hp hq
        exact ⟨p, q, hsplit, hp, hq⟩
  · intro name cc body c hpick
    cases body with
    | nil => simp [geocodeNominatimPick] at hpick
    | cons r0 rrest =>
      simp only [geocodeNominatimPick] at hpick
      cases hc : (if goToLower (goTrimSpace cc.toList) ≠ [] then
          (r0 :: rrest).filter (fun r => goToLower (goTrimSpace r.addressCountryCode.toList) ==
            goToLower (goTrimSpace cc.toList)) else r0 :: rrest) with
      | nil =>
        rw [hc] at hpick
        simp at hpick
      | cons c0 rest =>
        rw [hc] at hpick
        simp only [Option.some.injEq] at hpick
        obtain ⟨p, q, hsplit, hp, hq⟩ :=
          pickFold_spec (fun x : NomCandidate =>
            scoreCandidateL name.toList (geocodeNominatimName x) x.addressState.toList) rest c0
        rw [hpick] at hsplit hp hq
        exact ⟨p, q, hsplit, hp, hq⟩

/-- Counterexample for C7 as stated: with query ab and an empty candidate
name the stated sum gives the 10-point distance-2 bonus, but the code guards
the distance bonus behind non-empty query and name and scores 0. -/
theorem score_candidate_C7_counterexample :
    scoreCandidate "ab" "" "" = 0 ∧ scoreCandidateClaim "ab" "" "" = 10 ∧
    scoreCandidate "ab" "" "" ≠ scoreCandidateClaim "ab" "" "" := by
  refine ⟨by decide, by decide, by decide⟩

/-- Witness for C7 (amended): the score identity evaluated at a concrete
query, and the first-strict-maximum selection at a concrete two-candidate
pick for each provider. -/
theorem score_candidate_C7_witness :
    scoreCandidate "paris" "paris" "" = scoreCandidateAmended "paris" "paris" "" ∧
    (∃ p q, (if goToUpper (goTrimSpace ("US" : String).toList) ≠ [] then
        [(⟨"Pari", 1, 2, "United States", "US", ""⟩ : OMCandidate Int),
         ⟨"Paris", 3, 4, "United States", "US", "Texas"⟩].filter
          (fun r => goToUpper (goTrimSpace r.countryCode.toList) ==
            goToUpper (goTrimSpace ("US" : String).toList))
      else [(⟨"Pari", 1, 2, "United States", "US", ""⟩ : OMCandidate Int),
         ⟨"Paris", 3, 4, "United States", "US", "Texas"⟩]) =
        p ++ (⟨"Paris", 3, 4, "United States", "US", "Texas"⟩ : OMCandidate Int) :: q ∧
      (∀ x ∈ p, scoreCandidate "paris" x.name x.admin1 <
        scoreCandidate "paris" "Paris" "Texas") ∧
      (∀ x ∈ q, scoreCandidate "paris" x.name x.admin1 ≤
        scoreCandidate "paris" "Paris" "Texas")) ∧
    (∃ p q, (if goToLower (goTrimSpace ("US" : String).toList) ≠ [] then
        [(⟨"1", "2", "Pari", "Pari", "us", "", ""⟩ : NomCandidate),
         ⟨"3", "4", "Paris, United States", "Paris", "us", "Texas", ""⟩].filter
          (fun r => goToLower (goTrimSpace r.addressCountryCode.toList) ==
            goToLower (goTrimSpace ("US" : String).toList))
      else [(⟨"1", "2", "Pari", "Pari", "us", "", ""⟩ : NomCandidate),
         ⟨"3", "4", "Paris, United States", "Paris", "us", "Texas", ""⟩]) =
        p ++ (⟨"3", "4", "Paris, United States", "Paris", "us", "Texas", ""⟩ : NomCandidate) :: q ∧
      (∀ x ∈ p, scoreCandidateL ("paris" : String).toList (geocodeNominatimName x)
          x.addressState.toList <
        scoreCandidateL ("paris" : String).toList
          (geocodeNominatimName ⟨"3", "4", "Paris, United States", "Paris", "us", "Texas", ""⟩)
          ("Texas" : String).toList) ∧
      (∀ x ∈ q, scoreCandidateL ("paris" : String).toList (geocodeNominatimName x)
          x.addressState.toList ≤
        scoreCandidateL ("paris" : String).toList
          (geocodeNominatimName ⟨"3", "4", "Paris, United States", "Paris", "us", "Texas", ""⟩)
          ("Texas" : String).toList)) := by
  refine ⟨score_candidate_C7.1 "paris" "paris" "", ?_, ?_⟩
  · exact score_candidate_C7.2.1 Int "paris" "US"
      [⟨"Pari", 1, 2, "United States", "US", ""⟩,
       ⟨"Paris", 3, 4, "United States", "US", "Texas"⟩]
      ⟨"Paris", 3, 4, "United States", "US", "Texas"⟩ (by rfl)
  · exact score_candidate_C7.2.2 "paris" "US"
      [⟨"1", "2", "Pari", "Pari", "us", "", ""⟩,
       ⟨"3", "4", "Paris, United States", "Paris", "us", "Texas", ""⟩]
      ⟨"3", "4", "Paris, United States", "Paris", "us", "Texas", ""⟩ (by rfl)

/-- C9 evidence: when both providers fail hard (for example on a cancelled
request context), Geocode still writes a permanent negative entry for the
key into the cache, so the cache does not stay unchanged. -/
theorem geocode_error_cache_C9 :
    Geocode ([] : List (List Char × Option Unit))
      (fun _ => Except.error ()) (fun _ => Except.error ()) "paris" "FR" =
      (none, [("paris|FR".toList, none)], true) ∧
    (Geocode ([] : List (List Char × Option Unit))
      (fun _ => Except.error ()) (fun _ => Except.error ()) "paris" "FR").2.1 ≠ [] := by
  refine ⟨by decide, by decide⟩

/-- C10: a name that is empty or whitespace-only makes Geocode return the
zero result, not found, with no provider call and no cache write. -/
theorem geocode_empty_name_C10 (ρ : Type) (cache : List (List Char × Option ρ))
    (om nom : String → Except Unit (Option ρ)) (name countryCode : String)
    (h : ∀ c ∈ name.toList, goIsSpace c = true) :
    Geocode cache om nom name countryCode = (none, cache, false) := by
  have ht : goTrimSpace name.data = [] :=
    goTrimSpace_all_space name.data (by simpa [String.toList] using h)
  simp [Geocode, ht]

/-- Witness for C10 at the two-space name. -/
theorem geocode_empty_name_C10_witness :
    (∀ c ∈ ("  " : String).toList, goIsSpace c = true) ∧
    Geocode ([] : List (List Char × Option Unit))
      (fun _ => Except.error ()) (fun _ => Except.error ()) "  " "FR" =
      (none, [], false) :=
  ⟨by decide, geocode_empty_name_C10 Unit []
    (fun _ => Except.error ()) (fun _ => Except.error ()) "  " "FR" (by decide)⟩

/-- A scan over hits containing a case-insensitive exact match returns an
exact match. -/
theorem wikiScanAux_ok_of_exact (lb : List Char) :
    ∀ (hits : List String) (pref any : Option String) (t0 : String), t0 ∈ hits →
      goToLower t0.toList = lb →
      ∃ t, wikiScanAux lb hits pref any = Except.ok t ∧ t ∈ hits ∧
        goToLower t.toList = lb := by
  intro hits
  induction hits with
  | nil =>
    intro pref any t0 h
    exact absurd h (List.not_mem_nil t0)
  | cons title rest ih =>
    intro pref any t0 hmem hexact
    unfold wikiScanAux
    by_cases hx : goToLower title.toList = lb
    · rw [if_pos hx]
      exact ⟨title, rfl, List.mem_cons_self _ _, hx⟩
    · rw [if_neg hx]
      have ht0 : t0 ∈ rest := by
        rcases List.mem_cons.mp hmem with h | h
        · subst h
          exact absurd hexact hx
        · exact h
      obtain ⟨t, hscan, htmem, hex2⟩ := ih _ _ t0 ht0 hexact
      exact ⟨t, hscan, List.mem_cons_of_mem _ htmem, hex2⟩

/-- The scan result comes from the hits or from the carried candidates. -/
theorem wikiScanAux_mem (lb : List Char) :
    ∀ (hits : List String) (pref any : Option String) (t : String),
      wikiScanAux lb hits pref any = Except.ok t →
      t ∈ hits ∨ pref = some t ∨ any = some t := by
  intro hits
  induction hits with
  | nil =>
    intro pref any t h
    unfold wikiScanAux at h
    cases pref with
    | some p =>
      simp at h
      exact Or.inr (Or.inl (by rw [h]))
    | none =>
      cases any with
      | some a =>
        simp at h
        exact Or.inr (Or.inr (by rw [h]))
      | none => simp at h
  | cons title rest ih =>
    intro pref any t h
    unfold wikiScanAux at h
    by_cases hx : goToLower title.toList = lb
    · rw [if_pos hx] at h
      simp at h
      exact Or.inl (by rw [← h]; exact List.mem_cons_self _ _)
    · rw [if_neg hx] at h
      rcases ih _ _ t h with hmem | hpref | hany
      · exact Or.inl (List.mem_cons_of_mem _ hmem)
      · split at hpref
        · cases pref with
          | some p =>
            simp at hpref
            exact Or.inr (Or.inl (by rw [hpref]))
          | none =>
            simp at hpref
            exact Or.inl (by rw [← hpref]; exact List.mem_cons_self _ _)
        · exact Or.inr (Or.inl hpref)
      · cases any with
        | some a =>
          simp at hany
          exact Or.inr (Or.inr (by rw [hany]))
        | none =>
          simp only [] at hany
          split at hany
          · exact absurd hany (by simp)
          · simp at hany
            exact Or.inl (by rw [← hany]; exact List.mem_cons_self _ _)

/-- With non-empty hit titles and something to scan, the scan succeeds. -/
theorem wikiScanAux_ok_of_nonempty (lb : List Char) :
    ∀ (hits : List String) (pref any : Option String),
      (∀ t ∈ hits, t ≠ "") → (hits ≠ [] ∨ pref.isSome = true ∨ any.isSome = true) →
      ∃ t, wikiScanAux lb hits pref any = Except.ok t := by
  intro hits
  induction hits with
  | nil =>
    intro pref any hne hd
    rcases hd with h | h | h
    · exact absurd rfl h
    · cases pref with
      | some p => exact ⟨p, rfl⟩
      | none => simp at h
    · cases pref with
      | some p => exact ⟨p, rfl⟩
      | none =>
        cases any with
        | some a => exact ⟨a, rfl⟩
        | none => simp at h
  | cons title rest ih =>
    intro pref any hne hd
    unfold wikiScanAux
    by_cases hx : goToLower title.toList = lb
    · rw [if_pos hx]
      exact ⟨title, rfl⟩
    · rw [if_neg hx]
      apply ih
      · intro t ht
        exact hne t (List.mem_cons_of_mem _ ht)
      · right
        right
        have htne : title ≠ "" := hne title (List.mem_cons_self _ _)
        cases any with
        | some a => simp
        | none => simp [htne]

/-- Appending a non-empty string never yields the empty string. -/
theorem string_append_ne_empty (a b : String) (hb : b.data ≠ []) : a ++ b ≠ "" := by
  intro h
  have hdata : (a ++ b).data = [] := congrArg String.data h
  rw [String.data_append] at hdata
  exact hb (List.append_eq_nil.mp hdata).2

/-- Evaluation of the pure search on a non-empty query and hit list. -/
theorem searchWikipediaTitlePure_some (q : String) (hq : q ≠ "") (hits : List String)
    (hne : hits ≠ []) :
    searchWikipediaTitlePure q (some hits) =
      wikiScanAux (goToLower (wikiSearchBase q)) hits none none := by
  unfold searchWikipediaTitlePure
  rw [if_neg hq]
  simp [hne]

/-- Evaluation of the pure search on an empty hit list. -/
theorem searchWikipediaTitlePure_nil (q : String) (hq : q ≠ "") :
    searchWikipediaTitlePure q (some []) = Except.error () := by
  unfold searchWikipediaTitlePure
  rw [if_neg hq]
  simp

/-- C8: the summary lookup tries the queries with the hints artist, band and
music group appended, in that order, stopping at the first query whose search
returns at least one hit (hit titles are assumed non-empty, as Wikipedia
titles are); from the hits of that query the scan prefers a case-insensitive
exact match with the stripped base title, and otherwise still resolves to one
of the hits. -/
theorem wiki_summary_C8 (title : String) (search : String → Option (List String))
    (htitle : title ≠ "")
    (hnz : ∀ q hits, search q = some hits → ∀ t ∈ hits, t ≠ "") :
    (∀ hits1, search (title ++ " artist") = some hits1 → hits1 ≠ [] →
      FetchWikipediaSummaryResolve title search =
        wikiScanAux (goToLower (wikiSearchBase (title ++ " artist"))) hits1 none none ∧
      ∃ t, FetchWikipediaSummaryResolve title search = Except.ok t ∧ t ∈ hits1) ∧
    (∀ hits2, search (title ++ " artist") = some [] → search (title ++ " band") = some hits2 →
      hits2 ≠ [] →
      FetchWikipediaSummaryResolve title search =
        wikiScanAux (goToLower (wikiSearchBase (title ++ " band"))) hits2 none none ∧
      ∃ t, FetchWikipediaSummaryResolve title search = Except.ok t ∧ t ∈ hits2) ∧
    (∀ hits3, search (title ++ " artist") = some [] → search (title ++ " band") = some [] →
      search (title ++ " music group") = some hits3 → hits3 ≠ [] →
      FetchWikipediaSummaryResolve title search =
        wikiScanAux (goToLower (wikiSearchBase (title ++ " music group"))) hits3 none none ∧
      ∃ t, FetchWikipediaSummaryResolve title search = Except.ok t ∧ t ∈ hits3) ∧
    (∀ (lb : List Char) (hits : List String) (t0 : String), t0 ∈ hits →
      goToLower t0.toList = lb →
      ∃ t, wikiScanAux lb hits none none = Except.ok t ∧ t ∈ hits ∧
        goToLower t.toList = lb) ∧
    (∀ (lb : List Char) (hits : List String) (t : String),
      wikiScanAux lb hits none none = Except.ok t → t ∈ hits) := by
  have hq1 : (title ++ " artist") ≠ "" := string_append_ne_empty title " artist" (by decide)
  have hq2 : (title ++ " band") ≠ "" := string_append_ne_empty title " band" (by decide)
  have hq3 : (title ++ " music group") ≠ "" :=
    string_append_ne_empty title " music group" (by decide)
  refine ⟨?_, ?_, ?_, ?_, ?_⟩
  · intro hits1 hs1 hne1
    obtain ⟨t, ht⟩ := wikiScanAux_ok_of_nonempty
      (goToLower (wikiSearchBase (title ++ " artist"))) hits1 none none
      (hnz _ _ hs1) (Or.inl hne1)
    have hres : FetchWikipediaSummaryResolve title search = Except.ok t := by
      unfold FetchWikipediaSummaryResolve
      rw [if_neg htitle, hs1, searchWikipediaTitlePure_some _ hq1 _ hne1, ht]
    refine ⟨?_, t, hres, ?_⟩
    · rw [hres, ht]
    · rcases wikiScanAux_mem _ hits1 none none t ht with hmem | hpref | hany
      · exact hmem
      · exact absurd hpref (by simp)
      · exact absurd hany (by simp)
  · intro hits2 hs1 hs2 hne2
    obtain ⟨t, ht⟩ := wikiScanAux_ok_of_nonempty
      (goToLower (wikiSearchBase (title ++ " band"))) hits2 none none
      (hnz _ _ hs2) (Or.inl hne2)
    have hres : FetchWikipediaSummaryResolve title search = Except.ok t := by
      unfold FetchWikipediaSummaryResolve
      rw [if_neg htitle, hs1, searchWikipediaTitlePure_nil _ hq1, hs2,
        searchWikipediaTitlePure_some _ hq2 _ hne2, ht]
    refine ⟨?_, t, hres, ?_⟩
    · rw [hres, ht]
    · rcases wikiScanAux_mem _ hits2 none none t ht with hmem | hpref | hany
      · exact hmem
      · exact absurd hpref (by simp)
      · exact absurd hany (by simp)
  · intro hits3 hs1 hs2 hs3 hne3
    obtain ⟨t, ht⟩ := wikiScanAux_ok_of_nonempty
      (goToLower (wikiSearchBase (title ++ " music group"))) hits3 none none
      (hnz _ _ hs3) (Or.inl hne3)
    have hres : FetchWikipediaSummaryResolve title search = Except.ok t := by
      unfold FetchWikipediaSummaryResolve
      rw [if_neg htitle, hs1, searchWikipediaTitlePure_nil _ hq1, hs2,
        searchWikipediaTitlePure_nil _ hq2, hs3,
        searchWikipediaTitlePure_some _ hq3 _ hne3, ht]
    refine ⟨?_, t, hres, ?_⟩
    · rw [hres, ht]
    · rcases wikiScanAux_mem _ hits3 none none t ht with hmem | hpref | hany
      · exact hmem
      · exact absurd hpref (by simp)
      · exact absurd hany (by simp)
  · intro lb hits t0 hmem hexact
    exact wikiScanAux_ok_of_exact lb hits none none t0 hmem hexact
  · intro lb hits t h
    rcases wikiScanAux_mem lb hits none none t h with hmem | hpref | hany
    · exact hmem
    · exact absurd hpref (by simp)
    · exact absurd hany (by simp)

/-- Witness for C8: with search hits containing both the parenthetical
variant and the exact title, the resolution stops at the first (artist)
query and picks the exact match Queen. -/
theorem wiki_summary_C8_witness :
    ("Queen" : String) ≠ "" ∧
    FetchWikipediaSummaryResolve "Queen" (fun _ => some ["Queen (band)", "Queen"]) =
      wikiScanAux (goToLower (wikiSearchBase ("Queen" ++ " artist")))
        ["Queen (band)", "Queen"] none none ∧
    (∃ t, FetchWikipediaSummaryResolve "Queen" (fun _ => some ["Queen (band)", "Queen"]) =
      Except.ok t ∧ t ∈ (["Queen (band)", "Queen"] : List String)) ∧
    (∃ t, wikiScanAux ("queen" : String).toList ["Queen (band)", "Queen"] none none =
      Except.ok t ∧ t ∈ (["Queen (band)", "Queen"] : List String) ∧
      goToLower t.toList = ("queen" : String).toList) ∧
    FetchWikipediaSummaryResolve "Queen" (fun _ => some ["Queen (band)", "Queen"]) =
      Except.ok "Queen" := by
  have hnz : ∀ (q : String) (hits : List String),
      (fun (_ : String) => (some ["Queen (band)", "Queen"] : Option (List String))) q =
        some hits → ∀ t ∈ hits, t ≠ "" := by
    intro q hits h
    have h2 : hits = ["Queen (band)", "Queen"] := by
      injection h with h3
      exact h3.symm
    subst h2
    decide
  have hmain := wiki_summary_C8 "Queen" (fun _ => some ["Queen (band)", "Queen"])
    (by decide) hnz
  refine ⟨by decide, ?_, ?_, ?_, by rfl⟩
  · exact (hmain.1 ["Queen (band)", "Queen"] rfl (by decide)).1
  · exact (hmain.1 ["Queen (band)", "Queen"] rfl (by decide)).2
  · exact hmain.2.2.2.1 ("queen" : String).toList ["Queen (band)", "Queen"] "Queen"
      (by decide) (by decide)
